import Mathlib

/-!
Verification development for the `concacti` file-concatenation tool
(`src/main.rs`, `src/tree.rs`).

The program walks a directory tree depth-first (`visit_dirs`), filters
files through a glob-based include/exclude filter (`FileFilter`, built on
the `globset` crate), and appends the accepted files' bytes — optionally
preceded by a provenance comment line — into a single output file through
a `BufWriter` (`concatenate_files`).

Shallow embedding conventions:
* a filesystem path is a list of components (`FsPath := List String`);
  `pathStr` renders it with `/` separators exactly as `Path::display` does
  on Unix;
* the filesystem state observed by one run is a tree (`FNode`) in which
  every fallible operation's outcome is predetermined: a directory whose
  `read_dir` fails, an entry whose resolution (`entry?`) fails, a file
  whose `fs::canonicalize` or `fs::read` fails are all explicit
  constructors, so error propagation can be reasoned about;
* file contents and the output artifact are `String`s appended verbatim;
* `BufWriter` is modelled with its buffer/capacity behaviour so that
  buffer-size transparency is a theorem, not an assumption; write failures
  are modelled separately: `OutFile`/`BufWriterF`/`cbEngineF`/
  `concatenate_filesF` keep the `io::Result` of every write syscall, and an
  agreement theorem (`concatF_agrees`) shows the plain model is exactly the
  fallible one over a device that never fails;
* glob compilation and matching model the `globset` crate with its default
  settings (`literal_separator` off, so `*` and `?` may match `/`; a
  component-boundary `**/` is recursive).  The character class model keeps
  members literally (no ranges); the only class facts relied on are
  compilation errors for unclosed classes, matching `globset`.
-/

/-- Filesystem path as a list of components; `src/a.rs` is `["src", "a.rs"]`. -/
abbrev FsPath := List String

/-- Rendering of a path exactly as `Path::display` joins components on Unix. -/
def pathStr (p : FsPath) : String :=
  String.intercalate "/" p

/-- Error kinds of `globset::ErrorKind` that the model distinguishes. -/
inductive GlobErrorKind where
  | unclosedClass
  | danglingEscape
deriving DecidableEq, Repr

/-- Model of `globset::Error`: the glob text the compiler was given plus a kind. -/
structure GlobError where
  glob : Option String
  kind : GlobErrorKind
deriving DecidableEq, Repr

/-- Compiled glob tokens, mirroring the regexes `globset` emits with default
settings: `lit` is a literal character, `anyChar` is `?` (regex `.`),
`anySeq` is `*` (regex any character sequence), `recStar` is a boundary
`**/` component (regex alternation of the empty string and any string
ending in `/`), and `cls` is a character class. -/
inductive GlobToken where
  | lit (c : Char)
  | anyChar
  | anySeq
  | recStar
  | cls (neg : Bool) (members : List Char)
deriving DecidableEq, Repr

/-- Membership test of a character class token. -/
def clsMatch (neg : Bool) (members : List Char) (d : Char) : Bool :=
  if neg then !(members.contains d) else members.contains d

/-- Suffixes of a character list remaining after some consumed part that ends
in a separator; these are exactly the continuations a recursive `**/`
component allows besides consuming nothing. -/
def afterSlash (ds : List Char) : List (List Char) :=
  ds.tails.filterMap fun t =>
    match t with
    | '/' :: r => some r
    | _ => none

/-- Matcher for a token list against a path rendered as characters,
following the regex semantics `globset` compiles to with default settings:
`anySeq` consumes any (possibly empty) character sequence, and `recStar`
consumes either nothing or any sequence ending in `/`. -/
def globMatchL : List GlobToken → List Char → Bool
  | [], ds => ds.isEmpty
  | .lit c :: ts, ds =>
    match ds with
    | [] => false
    | d :: ds' => c == d && globMatchL ts ds'
  | .anyChar :: ts, ds =>
    match ds with
    | [] => false
    | _ :: ds' => globMatchL ts ds'
  | .cls neg ms :: ts, ds =>
    match ds with
    | [] => false
    | d :: ds' => clsMatch neg ms d && globMatchL ts ds'
  | .anySeq :: ts, ds => ds.tails.any (globMatchL ts)
  | .recStar :: ts, ds => globMatchL ts ds || (afterSlash ds).any (globMatchL ts)

/-- Parser modes: scanning ordinary glob syntax (tracking whether the
position is at a component boundary, i.e. the pattern start or just after
`/`), having just opened a character class, or inside a class body. -/
inductive PMode where
  | normal (bnd : Bool)
  | classOpen
  | classBody (neg : Bool) (acc : List Char)

/-- Tokenizer modelling `globset`'s parser with default settings over the
subset of glob syntax the program exercises.  A component-boundary `**/`
becomes a recursive component and a bare trailing `**` at a boundary
matches anything; an unclosed `[` class and a trailing `\` escape are
compilation errors, as in `globset`. -/
def parseGlobL : List Char → PMode → Except GlobErrorKind (List GlobToken)
  | [], .normal _ => .ok []
  | [], .classOpen => .error .unclosedClass
  | [], .classBody _ _ => .error .unclosedClass
  | c :: rest, .classOpen =>
    if c = '!' then parseGlobL rest (.classBody true [])
    else parseGlobL rest (.classBody false [c])
  | c :: rest, .classBody neg acc =>
    if c = ']' then
      match parseGlobL rest (.normal false) with
      | .error e => .error e
      | .ok ts => .ok (.cls neg acc :: ts)
    else parseGlobL rest (.classBody neg (acc ++ [c]))
  | '*' :: '*' :: '/' :: rest, .normal true =>
    match parseGlobL rest (.normal true) with
    | .error e => .error e
    | .ok ts => .ok (.recStar :: ts)
  | '*' :: '*' :: [], .normal true => .ok [.anySeq]
  | '*' :: rest, .normal _ =>
    match parseGlobL rest (.normal false) with
    | .error e => .error e
    | .ok ts => .ok (.anySeq :: ts)
  | '?' :: rest, .normal _ =>
    match parseGlobL rest (.normal false) with
    | .error e => .error e
    | .ok ts => .ok (.anyChar :: ts)
  | '[' :: rest, .normal _ => parseGlobL rest .classOpen
  | '\\' :: [], .normal _ => .error .danglingEscape
  | '\\' :: c :: rest, .normal _ =>
    match parseGlobL rest (.normal (c = '/')) with
    | .error e => .error e
    | .ok ts => .ok (.lit c :: ts)
  | c :: rest, .normal _ =>
    match parseGlobL rest (.normal (c = '/')) with
    | .error e => .error e
    | .ok ts => .ok (.lit c :: ts)

/-- Model of `globset::Glob`: the original glob text plus its compiled tokens. -/
structure Glob where
  text : String
  tokens : List GlobToken
deriving DecidableEq, Repr

/-- Model of `Glob::new`: compiles the glob text, attaching the text that was
passed to the compiler to any error, as `globset` does. -/
def Glob.new (s : String) : Except GlobError Glob :=
  match parseGlobL s.toList (.normal true) with
  | .ok ts => .ok { text := s, tokens := ts }
  | .error k => .error { glob := some s, kind := k }

/-- Model of `globset::GlobSet`: the compiled globs in insertion order. -/
structure GlobSet where
  globs : List Glob
deriving DecidableEq, Repr

/-- Membership test of a `GlobSet` against a path (`GlobSet::is_match`). -/
def GlobSet.is_match (gs : GlobSet) (p : FsPath) : Bool :=
  gs.globs.any fun g => globMatchL g.tokens (pathStr p).toList

/-- Model of `GlobSetBuilder::build`; building a set from valid globs
succeeds. -/
def GlobSet.build (globs : List Glob) : Except GlobError GlobSet :=
  .ok { globs := globs }

/-- Model of stripping a leading `!` marker from a pattern string, as the
pattern loop of `FileFilter::new` does: the tail of the string when its
first character is the negation marker, `none` otherwise. -/
def stripBang (s : String) : Option String :=
  match s.toList with
  | '!' :: rest => some (String.mk rest)
  | _ => none

/-- The `FileFilter` struct of `main.rs`: include glob set (`inc`), exclude
glob set (`exc`) — named `include` and `exclude` in the source, where the
former is not a usable Lean identifier — plus the `include_all` flag set
when no patterns were supplied. -/
structure FileFilter where
  inc : GlobSet
  exc : GlobSet
  include_all : Bool
deriving DecidableEq, Repr

/-- The pattern loop of `FileFilter::new`: each `!`-marked pattern is
compiled from its marker-stripped text and appended to the exclude builder,
every other pattern is compiled as written and appended to the include
builder, and either way `include_all` becomes false; the first compilation
failure aborts the loop with that error. -/
def buildLoop : List String → List Glob → List Glob → Bool →
    Except GlobError (List Glob × List Glob × Bool)
  | [], incB, excB, all => .ok (incB, excB, all)
  | p :: rest, incB, excB, _ =>
    match stripBang p with
    | some stripped =>
      match Glob.new stripped with
      | .error e => .error e
      | .ok g => buildLoop rest incB (excB ++ [g]) false
    | none =>
      match Glob.new p with
      | .error e => .error e
      | .ok g => buildLoop rest (incB ++ [g]) excB false

/-- Model of `FileFilter::new`: runs the pattern loop and, when no pattern
was supplied, adds the wildcard `**/*` to the include builder before
building both sets. -/
def FileFilter.new (patterns : List String) : Except GlobError FileFilter :=
  match buildLoop patterns [] [] true with
  | .error e => .error e
  | .ok (incB, excB, include_all) =>
    match (if include_all then
            match Glob.new "**/*" with
            | .error e => .error e
            | .ok g => .ok (incB ++ [g])
          else .ok incB : Except GlobError (List Glob)) with
    | .error e => .error e
    | .ok incB' =>
      match GlobSet.build incB' with
      | .error e => .error e
      | .ok includeSet =>
        match GlobSet.build excB with
        | .error e => .error e
        | .ok excludeSet =>
          .ok { inc := includeSet, exc := excludeSet,
                include_all := include_all }

/-- Model of `FileFilter::should_process` (line 94 of `main.rs`). -/
def FileFilter.should_process (f : FileFilter) (path : FsPath) : Bool :=
  (f.include_all || f.inc.is_match path) && !(f.exc.is_match path)

example : (Glob.new "**/*").isOk = true := by decide
example :
    (FileFilter.new ["**/*.ts", "!**/node_modules/**"]).map
      (fun ff => (ff.should_process ["a", "b.ts"],
                  ff.should_process ["a", "node_modules", "b.ts"],
                  ff.should_process ["a", "b.txt"]))
      = .ok (true, false, false) := rfl

/-- Model of `std::io::Error`: either an operating-system error observed by a
filesystem call, or the `InvalidInput` wrapper `concatenate_files` puts
around a pattern-compilation error (line 110 of `main.rs`). -/
inductive IoError where
  | os (code : Nat)
  | invalidInput (ge : GlobError)
deriving DecidableEq, Repr

/-- Filesystem tree as observed by one run.  Every fallible filesystem
operation's outcome is part of the state: `file` carries the results of
`fs::canonicalize` and `fs::read` for that file, `errEntry` is a directory
entry whose resolution (the `entry?` at line 163) fails, `dir` carries a
successful `read_dir` listing in listing order, and `dirErr` is a
directory whose `read_dir` fails. -/
inductive FNode where
  | file (name : String) (canon : Except IoError FsPath)
      (contents : Except IoError String)
  | other (name : String)
  | errEntry (e : IoError)
  | dir (name : String) (entries : List FNode)
  | dirErr (name : String) (e : IoError)
deriving Repr

/-- Entry name used to extend the parent path, as `DirEntry::path` does. -/
def FNode.name : FNode → String
  | .file n _ _ => n
  | .other n => n
  | .errEntry _ => ""
  | .dir n _ => n
  | .dirErr n _ => n

/-- Result of `path.is_dir()` on the entry. -/
def FNode.is_dir : FNode → Bool
  | .dir _ _ => true
  | .dirErr _ _ => true
  | _ => false

/-- Result of `path.is_file()` on the entry. -/
def FNode.is_file : FNode → Bool
  | .file _ _ _ => true
  | _ => false

/-- The `Cli` struct of `main.rs` (the configuration record; parsing of the
command line is outside the model). -/
structure Cli where
  directory : FsPath
  output : FsPath
  patterns : List String
  max_depth : Nat
  write_filenames : Bool
  write_tree : Bool
  comment_style : String
  buffer_size : Nat
deriving Repr

/-- Model of `std::io::BufWriter`: an in-memory buffer in front of the bytes
already pushed to the underlying file (`inner`). -/
structure BufWriter where
  capacity : Nat
  buf : String
  inner : String
deriving DecidableEq, Repr

/-- Model of `BufWriter::with_capacity` over a freshly created (truncated)
output file. -/
def BufWriter.new (capacity : Nat) : BufWriter :=
  { capacity := capacity, buf := "", inner := "" }

/-- Internal buffer flush: pushes the buffered bytes to the file. -/
def BufWriter.flushBuf (w : BufWriter) : BufWriter :=
  { w with inner := w.inner ++ w.buf, buf := "" }

/-- Model of `BufWriter::write_all`: flushes first when the incoming bytes
would overflow the buffer, then either writes them through directly (when
they are at least a buffer's worth) or appends them to the buffer. -/
def BufWriter.write_all (w : BufWriter) (s : String) : BufWriter :=
  let w1 := if w.capacity < w.buf.length + s.length then w.flushBuf else w
  if w.capacity ≤ s.length then { w1 with inner := w1.inner ++ s }
  else { w1 with buf := w1.buf ++ s }

/-- Model of `BufWriter::flush`. -/
def BufWriter.flush (w : BufWriter) : BufWriter :=
  w.flushBuf

/-- Bytes that reach the output file once the writer is flushed or dropped
(Rust's `BufWriter` flushes on drop, also on early error returns). -/
def contentOf (w : BufWriter) : String :=
  w.inner ++ w.buf

mutual

/-- Model of `visit_dirs` (lines 147-174 of `main.rs`): skip the subtree
when the depth bound is exceeded, then, when the path is a directory, fold
the callback over its listing, recursing into subdirectories at `depth + 1`
and aborting on the first error.  The state `σ` stands for whatever the
callback closure mutates (the writer, in the real program); `ff` mirrors
the `file_filter` argument the source passes along unused. -/
def visit_dirs {σ : Type} (cli : Cli) (ff : FileFilter)
    (cb : FsPath → FNode → σ → σ × Except IoError Unit)
    (n : FNode) (dirPath : FsPath) (depth : Nat) (s : σ) :
    σ × Except IoError Unit :=
  if depth > cli.max_depth then (s, .ok ())
  else
    match n with
    | .dir _ entries => visitEntries cli ff cb entries dirPath depth s
    | .dirErr _ e => (s, .error e)
    | _ => (s, .ok ())

/-- The entry loop of `visit_dirs`: resolves each entry (aborting when the
`entry?` resolution fails), recurses into directories, and hands every
non-directory entry to the callback, stopping at the first error. -/
def visitEntries {σ : Type} (cli : Cli) (ff : FileFilter)
    (cb : FsPath → FNode → σ → σ × Except IoError Unit)
    (entries : List FNode) (dirPath : FsPath) (depth : Nat) (s : σ) :
    σ × Except IoError Unit :=
  match entries with
  | [] => (s, .ok ())
  | .errEntry e :: _ => (s, .error e)
  | c :: rest =>
    if c.is_dir then
      match visit_dirs cli ff cb c (dirPath ++ [c.name]) (depth + 1) s with
      | (s', .ok _) => visitEntries cli ff cb rest dirPath depth s'
      | r => r
    else
      match cb (dirPath ++ [c.name]) c s with
      | (s', .ok _) => visitEntries cli ff cb rest dirPath depth s'
      | r => r

end

/-- The per-entry callback closure of `concatenate_files` (lines 120-139):
skip non-files; canonicalize the entry (propagating failure); skip the
entry silently when its canonical path is the output's; otherwise, when the
filter accepts the path, write the provenance line if configured, read the
file (propagating failure), and append its bytes plus one newline. -/
def cbEngine (cli : Cli) (ff : FileFilter) (output_path : FsPath)
    (p : FsPath) (n : FNode) (w : BufWriter) : BufWriter × Except IoError Unit :=
  match n with
  | .file _ canon contents =>
    match canon with
    | .error e => (w, .error e)
    | .ok canonical_path =>
      if canonical_path = output_path then (w, .ok ())
      else if ff.should_process p then
        let w1 := if cli.write_filenames
                  then w.write_all (cli.comment_style ++ " " ++ pathStr p ++ "\n")
                  else w
        match contents with
        | .error e => (w1, .error e)
        | .ok c => ((w1.write_all c).write_all "\n", .ok ())
      else (w, .ok ())
  | _ => (w, .ok ())

/-- Ambient filesystem facts one run observes besides the walked tree: the
outcome of creating the output file, of canonicalizing the output path, and
the text the `tree::tree` renderer produces for the root directory (the
renderer is the external collaborator of the spec; its text is opaque
here). -/
structure FS where
  createOutput : Except IoError Unit
  outCanon : Except IoError FsPath
  treeText : Except IoError String
  rootDir : FNode

/-- Model of `concatenate_files` (lines 103-145 of `main.rs`): create the
output and the buffered writer, canonicalize the output path, build the
filter (wrapping its error as `InvalidInput`), optionally write the
rendered tree followed by a newline, walk the tree with the engine
callback, and flush exactly once on success.  The returned writer reflects
the bytes sent towards the output file even on the error paths, where the
partially written output is left in place. -/
def concatenate_files (fs : FS) (cli : Cli) : BufWriter × Except IoError Unit :=
  match fs.createOutput with
  | .error e => (BufWriter.new cli.buffer_size, .error e)
  | .ok _ =>
    let writer := BufWriter.new cli.buffer_size
    match fs.outCanon with
    | .error e => (writer, .error e)
    | .ok output_path =>
      match FileFilter.new cli.patterns with
      | .error e => (writer, .error (.invalidInput e))
      | .ok file_filter =>
        match (if cli.write_tree then
                match fs.treeText with
                | .error e => .error e
                | .ok t => .ok (writer.write_all (t ++ "\n"))
              else .ok writer : Except IoError BufWriter) with
        | .error e => (writer, .error e)
        | .ok writer1 =>
          match visit_dirs cli file_filter (cbEngine cli file_filter output_path)
              fs.rootDir cli.directory 0 writer1 with
          | (w, .error e) => (w, .error e)
          | (w, .ok _) => (w.flush, .ok ())

/-- Sample tree of the source's unit tests: `file1.txt`, `file2.ts`,
`subdir/file3.ts`, `node_modules/file4.ts`, every path canonical to
itself. -/
def sampleTree : FNode :=
  .dir "root"
    [ .file "file1.txt" (.ok ["root", "file1.txt"]) (.ok "Content of file1"),
      .file "file2.ts" (.ok ["root", "file2.ts"]) (.ok "Content of file2"),
      .dir "subdir"
        [ .file "file3.ts" (.ok ["root", "subdir", "file3.ts"])
            (.ok "Content of file3") ],
      .dir "node_modules"
        [ .file "file4.ts" (.ok ["root", "node_modules", "file4.ts"])
            (.ok "Content of file4") ] ]

/-- Sample ambient state: everything succeeds, output lives outside the
walked tree. -/
def sampleFS : FS :=
  { createOutput := .ok (), outCanon := .ok ["out.txt"],
    treeText := .ok "TREE", rootDir := sampleTree }

/-- Sample configuration mirroring `test_wildcard_exclude`. -/
def sampleCli : Cli :=
  { directory := ["root"], output := ["out.txt"],
    patterns := ["**/*.ts", "!**/node_modules/**"],
    max_depth := 1000000, write_filenames := false, write_tree := false,
    comment_style := "//", buffer_size := 8192 }

example :
    contentOf (concatenate_files sampleFS sampleCli).1
      = "Content of file2\nContent of file3\n"
    ∧ (concatenate_files sampleFS sampleCli).2 = .ok () := by
  constructor <;> rfl

/-- Runs a callback over a list of walked entries threading the state, with
the residual walk result `tail` delivered when every callback succeeds; the
first callback error aborts. -/
def seqRun {σ : Type} (cb : FsPath → FNode → σ → σ × Except IoError Unit) :
    List (FsPath × FNode) → Except IoError Unit → σ → σ × Except IoError Unit
  | [], tail, s => (s, tail)
  | e :: rest, tail, s =>
    match cb e.1 e.2 s with
    | (s', .ok _) => seqRun cb rest tail s'
    | r => r

mutual

/-- Callback-free mirror of `visit_dirs`: the sequence of entries the walk
hands to the callback, in visitation order, together with the walk's own
residual result (an error when a `read_dir` or entry resolution fails
before the walk completes). -/
def pureWalk (maxD : Nat) (n : FNode) (dirPath : FsPath) (depth : Nat) :
    List (FsPath × FNode) × Except IoError Unit :=
  if depth > maxD then ([], .ok ())
  else
    match n with
    | .dir _ entries => walkList maxD entries dirPath depth
    | .dirErr _ e => ([], .error e)
    | _ => ([], .ok ())

/-- Callback-free mirror of the entry loop of `visit_dirs`. -/
def walkList (maxD : Nat) (entries : List FNode) (dirPath : FsPath)
    (depth : Nat) : List (FsPath × FNode) × Except IoError Unit :=
  match entries with
  | [] => ([], .ok ())
  | .errEntry e :: _ => ([], .error e)
  | c :: rest =>
    if c.is_dir then
      match pureWalk maxD c (dirPath ++ [c.name]) (depth + 1) with
      | (l, .ok _) =>
        match walkList maxD rest dirPath depth with
        | (l2, r2) => (l ++ l2, r2)
      | (l, .error e) => (l, .error e)
    else
      match walkList maxD rest dirPath depth with
      | (l2, r2) => ((dirPath ++ [c.name], c) :: l2, r2)

end

theorem seqRun_append {σ : Type} (cb : FsPath → FNode → σ → σ × Except IoError Unit)
    (l1 l2 : List (FsPath × FNode)) (tail : Except IoError Unit) (s : σ) :
    seqRun cb (l1 ++ l2) tail s =
      match seqRun cb l1 (.ok ()) s with
      | (s', .ok _) => seqRun cb l2 tail s'
      | r => r := by
  induction l1 generalizing s with
  | nil => simp [seqRun]
  | cons e rest ih =>
    simp only [List.cons_append, seqRun]
    match h : cb e.1 e.2 s with
    | (s', .ok u) => simpa using ih s'
    | (s', .error er) => simp

theorem seqRun_error_tail {σ : Type}
    (cb : FsPath → FNode → σ → σ × Except IoError Unit)
    (l : List (FsPath × FNode)) (e : IoError) (s : σ) :
    (seqRun cb l (.error e) s).2 ≠ .ok () := by
  induction l generalizing s with
  | nil => simp [seqRun]
  | cons x rest ih =>
    simp only [seqRun]
    match h : cb x.1 x.2 s with
    | (s', .ok u) => simpa using ih s'
    | (s', .error er) => simp


mutual

/-- Simulation of `visit_dirs` by the callback-free walk: running any
callback through `visit_dirs` is the same as running it over the walk's
entry sequence, with the walk's residual result as the tail. -/
theorem visit_dirs_eq_seqRun {σ : Type} (cli : Cli) (ff : FileFilter)
    (cb : FsPath → FNode → σ → σ × Except IoError Unit)
    (n : FNode) (dirPath : FsPath) (depth : Nat) (s : σ) :
    visit_dirs cli ff cb n dirPath depth s =
      seqRun cb (pureWalk cli.max_depth n dirPath depth).1
        (pureWalk cli.max_depth n dirPath depth).2 s := by
  rw [visit_dirs.eq_def, pureWalk.eq_def]
  by_cases h : depth > cli.max_depth
  · simp [h, seqRun]
  · match n with
    | .dir nm entries =>
      simp only [h, if_false]
      exact visitEntries_eq_seqRun cli ff cb entries dirPath depth s
    | .dirErr nm e => simp [h, seqRun]
    | .file nm ca co => simp [h, seqRun]
    | .other nm => simp [h, seqRun]
    | .errEntry e => simp [h, seqRun]

/-- Simulation of the entry loop of `visit_dirs` by its callback-free
mirror. -/
theorem visitEntries_eq_seqRun {σ : Type} (cli : Cli) (ff : FileFilter)
    (cb : FsPath → FNode → σ → σ × Except IoError Unit)
    (entries : List FNode) (dirPath : FsPath) (depth : Nat) (s : σ) :
    visitEntries cli ff cb entries dirPath depth s =
      seqRun cb (walkList cli.max_depth entries dirPath depth).1
        (walkList cli.max_depth entries dirPath depth).2 s := by
  rw [visitEntries.eq_def, walkList.eq_def]
  match entries with
  | [] => simp [seqRun]
  | .errEntry e :: rest => simp [seqRun]
  | .file nm ca co :: rest =>
    simp only [FNode.is_dir, Bool.false_eq_true, if_false, FNode.name]
    have ihrest := visitEntries_eq_seqRun cli ff cb rest dirPath depth
    match h : cb (dirPath ++ [nm]) (.file nm ca co) s with
    | (s', .ok u) =>
      match h2 : walkList cli.max_depth rest dirPath depth with
      | (l2, r2) => simp_all [seqRun]
    | (s', .error er) =>
      match h2 : walkList cli.max_depth rest dirPath depth with
      | (l2, r2) => simp_all [seqRun]
  | .other nm :: rest =>
    simp only [FNode.is_dir, Bool.false_eq_true, if_false, FNode.name]
    have ihrest := visitEntries_eq_seqRun cli ff cb rest dirPath depth
    match h : cb (dirPath ++ [nm]) (.other nm) s with
    | (s', .ok u) =>
      match h2 : walkList cli.max_depth rest dirPath depth with
      | (l2, r2) => simp_all [seqRun]
    | (s', .error er) =>
      match h2 : walkList cli.max_depth rest dirPath depth with
      | (l2, r2) => simp_all [seqRun]
  | .dir nm sub :: rest =>
    simp only [FNode.is_dir, if_true, FNode.name]
    have hchild := visit_dirs_eq_seqRun cli ff cb (.dir nm sub)
      (dirPath ++ [nm]) (depth + 1) s
    have ihrest := visitEntries_eq_seqRun cli ff cb rest dirPath depth
    match hw : pureWalk cli.max_depth (.dir nm sub) (dirPath ++ [nm]) (depth + 1) with
    | (l1, .ok u) =>
      rw [hw] at hchild
      rw [hchild, seqRun_append]
      match hs : seqRun cb l1 (.ok ()) s with
      | (s', .ok u') =>
        match h2 : walkList cli.max_depth rest dirPath depth with
        | (l2, r2) => simp_all
      | (s', .error er) =>
        match h2 : walkList cli.max_depth rest dirPath depth with
        | (l2, r2) => simp_all
    | (l1, .error e) =>
      rw [hw] at hchild
      rw [hchild]
      match hs : seqRun cb l1 (.error e) s with
      | (s', .ok u') =>
        exact absurd (congrArg Prod.snd hs) (seqRun_error_tail cb l1 e s)
      | (s', .error er) => simp_all
  | .dirErr nm e0 :: rest =>
    simp only [FNode.is_dir, if_true, FNode.name]
    have hchild := visit_dirs_eq_seqRun cli ff cb (.dirErr nm e0)
      (dirPath ++ [nm]) (depth + 1) s
    have ihrest := visitEntries_eq_seqRun cli ff cb rest dirPath depth
    match hw : pureWalk cli.max_depth (.dirErr nm e0) (dirPath ++ [nm]) (depth + 1) with
    | (l1, .ok u) =>
      rw [hw] at hchild
      rw [hchild, seqRun_append]
      match hs : seqRun cb l1 (.ok ()) s with
      | (s', .ok u') =>
        match h2 : walkList cli.max_depth rest dirPath depth with
        | (l2, r2) => simp_all
      | (s', .error er) =>
        match h2 : walkList cli.max_depth rest dirPath depth with
        | (l2, r2) => simp_all
    | (l1, .error e') =>
      rw [hw] at hchild
      rw [hchild]
      match hs : seqRun cb l1 (.error e') s with
      | (s', .ok u') =>
        exact absurd (congrArg Prod.snd hs) (seqRun_error_tail cb l1 e' s)
      | (s', .error er) => simp_all

end

theorem contentOf_new (c : Nat) : contentOf (BufWriter.new c) = "" := rfl

theorem contentOf_flushBuf (w : BufWriter) : contentOf w.flushBuf = contentOf w := by
  simp [contentOf, BufWriter.flushBuf, String.append_empty]

theorem contentOf_flush (w : BufWriter) : contentOf w.flush = contentOf w :=
  contentOf_flushBuf w


/-- Writing through the buffered writer appends the bytes to the observable
output, whatever the capacity and buffer state.  In the one branch that
bypasses the buffer without flushing first, the buffer is necessarily
empty, so no reordering can occur. -/
theorem contentOf_write_all (w : BufWriter) (s : String) :
    contentOf (w.write_all s) = contentOf w ++ s := by
  unfold BufWriter.write_all
  by_cases h1 : w.capacity < w.buf.length + s.length
  · simp only [h1, if_true]
    by_cases h2 : w.capacity ≤ s.length <;>
      simp [h2, contentOf, BufWriter.flushBuf, String.append_assoc,
        String.append_empty]
  · simp only [h1, if_false]
    by_cases h2 : w.capacity ≤ s.length
    · have hb : w.buf.length = 0 := by omega
      have hb' : w.buf = "" := by
        cases hbq : w.buf with
        | mk l =>
          rw [hbq] at hb
          cases l with
          | nil => rfl
          | cons c cs => simp [String.length] at hb
      simp [h2, contentOf, hb', String.append_assoc, String.append_empty,
        String.empty_append]
    · simp [h2, contentOf, String.append_assoc]

/-- Provenance line the engine emits before a file's bytes when
`write_filenames` is set (`writeln!(writer, "{} {}", ...)`). -/
def provLine (wf : Bool) (cs : String) (p : FsPath) : String :=
  if wf then cs ++ " " ++ pathStr p ++ "\n" else ""

/-- Bytes appended and result produced by the engine callback for one walked
entry, as a pure function of the entry. -/
def cbSpec (wf : Bool) (cs : String) (ff : FileFilter) (out : FsPath)
    (p : FsPath) (n : FNode) : String × Except IoError Unit :=
  match n with
  | .file _ canon contents =>
    match canon with
    | .error e => ("", .error e)
    | .ok cp =>
      if cp = out then ("", .ok ())
      else if ff.should_process p then
        match contents with
        | .error e => (provLine wf cs p, .error e)
        | .ok c => (provLine wf cs p ++ c ++ "\n", .ok ())
      else ("", .ok ())
  | _ => ("", .ok ())

/-- Bytes appended and result produced over a sequence of walked entries:
each entry's block is concatenated in visitation order, and the first
callback error cuts the sequence short. -/
def renderSeq (wf : Bool) (cs : String) (ff : FileFilter) (out : FsPath) :
    List (FsPath × FNode) → String × Except IoError Unit
  | [] => ("", .ok ())
  | e :: rest =>
    match cbSpec wf cs ff out e.1 e.2 with
    | (b, .ok _) =>
      match renderSeq wf cs ff out rest with
      | (bs, r) => (b ++ bs, r)
    | (b, .error er) => (b, .error er)

/-- Per-entry correspondence: the engine callback changes the observable
output by exactly the block `cbSpec` describes and returns the result
`cbSpec` describes, whatever the writer state. -/
theorem cbEngine_spec (cli : Cli) (ff : FileFilter) (out p : FsPath)
    (n : FNode) (w : BufWriter) :
    (cbEngine cli ff out p n w).2
        = (cbSpec cli.write_filenames cli.comment_style ff out p n).2 ∧
    contentOf (cbEngine cli ff out p n w).1
        = contentOf w ++ (cbSpec cli.write_filenames cli.comment_style ff out p n).1 := by
  match n with
  | .other nm => simp [cbEngine, cbSpec, String.append_empty]
  | .errEntry e => simp [cbEngine, cbSpec, String.append_empty]
  | .dir nm sub => simp [cbEngine, cbSpec, String.append_empty]
  | .dirErr nm e => simp [cbEngine, cbSpec, String.append_empty]
  | .file nm canon contents =>
    match canon with
    | .error e => simp [cbEngine, cbSpec, String.append_empty]
    | .ok cp =>
      by_cases h1 : cp = out
      · simp [cbEngine, cbSpec, h1, String.append_empty]
      · by_cases h2 : ff.should_process p
        · match contents with
          | .error e =>
            by_cases h3 : cli.write_filenames <;>
              simp [cbEngine, cbSpec, h1, h2, h3, provLine,
                contentOf_write_all, String.append_empty, String.append_assoc]
          | .ok c =>
            by_cases h3 : cli.write_filenames <;>
              simp [cbEngine, cbSpec, h1, h2, h3, provLine,
                contentOf_write_all, String.append_empty, String.append_assoc]
        · simp [cbEngine, cbSpec, h1, h2, String.append_empty]

/-- Sequence correspondence: running the engine callback over a walked entry
sequence appends exactly the rendered blocks to the observable output, and
delivers the walk's residual result precisely when no callback failed. -/
theorem seqRun_render (cli : Cli) (ff : FileFilter) (out : FsPath)
    (es : List (FsPath × FNode)) (tail : Except IoError Unit) (w : BufWriter) :
    contentOf (seqRun (cbEngine cli ff out) es tail w).1
        = contentOf w
            ++ (renderSeq cli.write_filenames cli.comment_style ff out es).1 ∧
    (seqRun (cbEngine cli ff out) es tail w).2
        = (match (renderSeq cli.write_filenames cli.comment_style ff out es).2 with
           | .ok _ => tail
           | .error e => .error e) := by
  induction es generalizing w with
  | nil => simp [seqRun, renderSeq, String.append_empty]
  | cons e rest ih =>
    obtain ⟨hr, hc⟩ := cbEngine_spec cli ff out e.1 e.2 w
    simp only [seqRun, renderSeq]
    match he : cbEngine cli ff out e.1 e.2 w,
        hq : cbSpec cli.write_filenames cli.comment_style ff out e.1 e.2 with
    | (w', rw'), (b, br) =>
      rw [he, hq] at hr hc
      simp only at hr hc
      rw [hr]
      cases br with
      | ok u =>
        obtain ⟨ih1, ih2⟩ := ih w'
        match hrs : renderSeq cli.write_filenames cli.comment_style ff out rest with
        | (bs, r) =>
          rw [hrs] at ih1 ih2
          simp only at ih1 ih2
          simp [ih1, ih2, hc, String.append_assoc]
      | error er => exact ⟨hc, rfl⟩

/-- Spec-level description of a whole run: the observable output bytes and
the result, composed from the optional tree block and the rendered walk
sequence, with each failure point of `concatenate_files` reflected. -/
def runRender (fs : FS) (cli : Cli) : String × Except IoError Unit :=
  match fs.createOutput with
  | .error e => ("", .error e)
  | .ok _ =>
    match fs.outCanon with
    | .error e => ("", .error e)
    | .ok out =>
      match FileFilter.new cli.patterns with
      | .error e => ("", .error (.invalidInput e))
      | .ok ff =>
        match (if cli.write_tree then
                match fs.treeText with
                | .error e => .error e
                | .ok t => .ok (t ++ "\n")
              else .ok "" : Except IoError String) with
        | .error e => ("", .error e)
        | .ok tp =>
          match pureWalk cli.max_depth fs.rootDir cli.directory 0 with
          | (es, wres) =>
            match renderSeq cli.write_filenames cli.comment_style ff out es with
            | (body, rres) =>
              (tp ++ body,
               match rres with
               | .ok _ => wres
               | .error e => .error e)

/-- Whole-run correspondence: `concatenate_files` produces exactly the
observable output and result `runRender` describes. -/
theorem concat_spec (fs : FS) (cli : Cli) :
    contentOf (concatenate_files fs cli).1 = (runRender fs cli).1 ∧
    (concatenate_files fs cli).2 = (runRender fs cli).2 := by
  unfold concatenate_files runRender
  match fs.createOutput with
  | .error e => exact ⟨rfl, rfl⟩
  | .ok u =>
    match fs.outCanon with
    | .error e => exact ⟨rfl, rfl⟩
    | .ok out =>
      match FileFilter.new cli.patterns with
      | .error e => exact ⟨rfl, rfl⟩
      | .ok ff =>
        have core : ∀ w1 : BufWriter,
            contentOf
              (match visit_dirs cli ff (cbEngine cli ff out)
                  fs.rootDir cli.directory 0 w1 with
               | (w, Except.error e) => (w, Except.error e)
               | (w, Except.ok _) => (w.flush, Except.ok ())).1
              = contentOf w1
                ++ (renderSeq cli.write_filenames cli.comment_style ff out
                      (pureWalk cli.max_depth fs.rootDir cli.directory 0).1).1 ∧
            (match visit_dirs cli ff (cbEngine cli ff out)
                  fs.rootDir cli.directory 0 w1 with
             | (w, Except.error e) => (w, Except.error e)
             | (w, Except.ok _) => (w.flush, Except.ok ())).2
              = (match (renderSeq cli.write_filenames cli.comment_style ff out
                        (pureWalk cli.max_depth fs.rootDir cli.directory 0).1).2 with
                 | Except.ok _ => (pureWalk cli.max_depth fs.rootDir cli.directory 0).2
                 | Except.error e => Except.error e) := by
          intro w1
          obtain ⟨hr1, hr2⟩ := seqRun_render cli ff out
            (pureWalk cli.max_depth fs.rootDir cli.directory 0).1
            (pureWalk cli.max_depth fs.rootDir cli.directory 0).2 w1
          have hv := visit_dirs_eq_seqRun cli ff (cbEngine cli ff out)
            fs.rootDir cli.directory 0 w1
          rw [hv]
          match hsr : seqRun (cbEngine cli ff out)
              (pureWalk cli.max_depth fs.rootDir cli.directory 0).1
              (pureWalk cli.max_depth fs.rootDir cli.directory 0).2 w1 with
          | (w', r') =>
            rw [hsr] at hr1 hr2
            simp only at hr1 hr2
            cases r' with
            | ok u' =>
              constructor
              · show contentOf w'.flush = _
                rw [contentOf_flush]
                exact hr1
              · show Except.ok () = _
                rw [← hr2]
            | error e' => exact ⟨hr1, hr2⟩
        cases ht : cli.write_tree with
        | true =>
          match htt : fs.treeText with
          | .error e => exact ⟨rfl, rfl⟩
          | .ok t =>
            obtain ⟨c1, c2⟩ := core
              ((BufWriter.new cli.buffer_size).write_all (t ++ "\n"))
            rw [contentOf_write_all, contentOf_new, String.empty_append] at c1
            exact ⟨c1, c2⟩
        | false => exact core (BufWriter.new cli.buffer_size)

theorem anySeq_matches (ds : List Char) : globMatchL [.anySeq] ds = true := by
  rw [globMatchL, List.any_eq_true]
  exact ⟨[], by rw [List.mem_tails]; exact List.nil_suffix, rfl⟩

theorem recStar_anySeq_matches (ds : List Char) :
    globMatchL [.recStar, .anySeq] ds = true := by
  rw [globMatchL]
  rw [show ([GlobToken.anySeq] : List GlobToken) = [GlobToken.anySeq] from rfl] at *
  rw [anySeq_matches]
  simp

/-- C2.  Exclusion precedence: a path matched by the exclude set is never
processed, regardless of the include side or `match_everything`
(`include_all`); and `should_process` is exactly the conjunction of the
include disjunction with the negated exclude match (line 94 of
`main.rs`). -/
theorem exclusion_precedence (ff : FileFilter) (p : FsPath) :
    (ff.exc.is_match p = true → ff.should_process p = false) ∧
    ff.should_process p
      = ((ff.include_all || ff.inc.is_match p) && !(ff.exc.is_match p)) := by
  refine ⟨fun h => ?_, rfl⟩
  simp [FileFilter.should_process, h]

/-- Concrete filter for the exclusion-precedence witness: one include glob
`**/*.ts`, one exclude glob `*` matching every path. -/
def ffWitness0 : FileFilter :=
  FileFilter.mk
    (GlobSet.mk [Glob.mk "**/*.ts" [.recStar, .anySeq, .lit '.', .lit 't', .lit 's']])
    (GlobSet.mk [Glob.mk "*" [.anySeq]])
    false

theorem exclusion_precedence_witness :
    ffWitness0.exc.is_match ["a"] = true
      ∧ ffWitness0.should_process ["a"] = false :=
  ⟨by decide, (exclusion_precedence ffWitness0 ["a"]).1 (by decide)⟩

/-- C3.  Wildcard-all invariant: building the filter from the empty pattern
list yields `include_all = true` with the single wildcard include glob
`**/*` that matches every path, and `should_process` accepts every path. -/
theorem wildcard_all :
    ∃ ff, FileFilter.new [] = .ok ff ∧ ff.include_all = true ∧
      (∀ p : FsPath, ff.inc.is_match p = true) ∧
      (∀ p : FsPath, ff.should_process p = true) := by
  refine ⟨{ inc := { globs := [{ text := "**/*", tokens := [.recStar, .anySeq] }] },
            exc := { globs := [] }, include_all := true },
          rfl, rfl, ?_, ?_⟩
  · intro p
    simp [GlobSet.is_match, recStar_anySeq_matches]
  · intro p
    simp [FileFilter.should_process, GlobSet.is_match]

/-- C5.  Per-file output format: for an accepted file (canonical path differs
from the output's, filter accepts), the callback succeeds and appends
exactly the optional provenance line `<comment_style> <display_path>\n`
followed by the file's bytes and one trailing newline. -/
theorem per_file_output_format (cli : Cli) (ff : FileFilter) (out p : FsPath)
    (nm : String) (cp : FsPath) (c : String) (w : BufWriter)
    (h1 : cp ≠ out) (h2 : ff.should_process p = true) :
    (cbEngine cli ff out p (.file nm (.ok cp) (.ok c)) w).2 = .ok () ∧
    contentOf (cbEngine cli ff out p (.file nm (.ok cp) (.ok c)) w).1
      = contentOf w
        ++ ((if cli.write_filenames
             then cli.comment_style ++ " " ++ pathStr p ++ "\n" else "")
            ++ c ++ "\n") := by
  obtain ⟨hr, hc⟩ := cbEngine_spec cli ff out p (.file nm (.ok cp) (.ok c)) w
  simp only [cbSpec, h1, if_false, h2, if_true, provLine] at hr hc
  exact ⟨hr, hc⟩

def ffWitnessAll : FileFilter :=
  { inc := { globs := [{ text := "**/*", tokens := [.recStar, .anySeq] }] },
    exc := { globs := [] }, include_all := true }

theorem per_file_output_format_witness :
    (["r", "a.txt"] : FsPath) ≠ ["out.txt"]
      ∧ ffWitnessAll.should_process ["r", "a.txt"] = true
      ∧ ((cbEngine sampleCli ffWitnessAll ["out.txt"] ["r", "a.txt"]
            (.file "a.txt" (.ok ["r", "a.txt"]) (.ok "hi"))
            (BufWriter.new 8192)).2 = .ok ()
         ∧ contentOf (cbEngine sampleCli ffWitnessAll ["out.txt"] ["r", "a.txt"]
            (.file "a.txt" (.ok ["r", "a.txt"]) (.ok "hi"))
            (BufWriter.new 8192)).1
          = contentOf (BufWriter.new 8192)
            ++ ((if sampleCli.write_filenames
                 then sampleCli.comment_style ++ " " ++ pathStr ["r", "a.txt"] ++ "\n"
                 else "") ++ "hi" ++ "\n")) :=
  ⟨by decide, by decide,
   per_file_output_format sampleCli ffWitnessAll ["out.txt"] ["r", "a.txt"]
     "a.txt" ["r", "a.txt"] "hi" (BufWriter.new 8192) (by decide) (by decide)⟩

/-- C8.  Determinism relative to listing order: the run's observable output
and result are exactly the pure function `runRender` of the filesystem
snapshot and configuration, whose body concatenates the accepted files'
blocks by a fold over the walk's visitation sequence in order — so two runs
over identical state with identical listing order are byte-identical, and
concatenation is order-preserving with respect to the walk. -/
theorem concat_order_preserving (fs : FS) (cli : Cli) :
    contentOf (concatenate_files fs cli).1 = (runRender fs cli).1 ∧
    (concatenate_files fs cli).2 = (runRender fs cli).2 :=
  concat_spec fs cli

/-- C9.  Buffer-size transparency: the observable output and the result of a
run do not depend on the `buffer_size` configuration. -/
theorem buffer_size_transparency (fs : FS) (cli : Cli) (b1 b2 : Nat) :
    contentOf (concatenate_files fs { cli with buffer_size := b1 }).1
      = contentOf (concatenate_files fs { cli with buffer_size := b2 }).1 ∧
    (concatenate_files fs { cli with buffer_size := b1 }).2
      = (concatenate_files fs { cli with buffer_size := b2 }).2 := by
  obtain ⟨a1, a2⟩ := concat_spec fs { cli with buffer_size := b1 }
  obtain ⟨c1, c2⟩ := concat_spec fs { cli with buffer_size := b2 }
  have h : runRender fs { cli with buffer_size := b1 }
      = runRender fs { cli with buffer_size := b2 } := rfl
  exact ⟨by rw [a1, c1, h], by rw [a2, c2, h]⟩

/-- Test whether a walked entry is the output file itself: a file whose
canonicalization succeeded with exactly the output's canonical path. -/
def isSelf (out : FsPath) (n : FNode) : Bool :=
  match n with
  | .file _ (.ok cp) _ => decide (cp = out)
  | _ => false

theorem cbSpec_self (wf : Bool) (cs : String) (ff : FileFilter) (out p : FsPath)
    (n : FNode) (h : isSelf out n = true) :
    cbSpec wf cs ff out p n = ("", .ok ()) := by
  match n with
  | .file nm (.ok cp) c =>
    simp only [isSelf, decide_eq_true_eq] at h
    simp [cbSpec, h]
  | .file nm (.error e) c => simp [isSelf] at h
  | .other nm => simp [isSelf] at h
  | .errEntry e => simp [isSelf] at h
  | .dir nm es => simp [isSelf] at h
  | .dirErr nm e => simp [isSelf] at h

/-- C1.  Self-exclusion: the engine callback on an entry whose canonical path
equals the output's canonical path returns the writer unchanged with
success (lines 125-128 of `main.rs`), and the bytes rendered for any walked
entry sequence are the same as for the sequence with every such self entry
removed — so the output file's contents are never read back and appended
into itself, also when the output path lies inside the walked tree. -/
theorem self_exclusion (cli : Cli) (ff : FileFilter) (out : FsPath) :
    (∀ (p : FsPath) (nm : String) (c : Except IoError String) (w : BufWriter),
       cbEngine cli ff out p (.file nm (.ok out) c) w = (w, .ok ())) ∧
    (∀ es : List (FsPath × FNode),
       renderSeq cli.write_filenames cli.comment_style ff out
           (es.filter fun e => !(isSelf out e.2))
         = renderSeq cli.write_filenames cli.comment_style ff out es) := by
  constructor
  · intro p nm c w
    simp [cbEngine]
  · intro es
    induction es with
    | nil => rfl
    | cons e rest ih =>
      by_cases h : isSelf out e.2 = true
      · have hspec := cbSpec_self cli.write_filenames cli.comment_style ff out
          e.1 e.2 h
        simp only [List.filter, h, Bool.not_true]
        rw [ih]
        conv_rhs => rw [renderSeq]
        rw [hspec]
        match hrs : renderSeq cli.write_filenames cli.comment_style ff out rest with
        | (bs, r) => simp [String.empty_append]
      · have hb : isSelf out e.2 = false := by
          cases hq : isSelf out e.2 with
          | true => exact absurd hq h
          | false => rfl
        simp only [List.filter, hb, Bool.not_false]
        rw [renderSeq, renderSeq, ih]

theorem buildLoop_all_excl (ps : List String) (incB excB : List Glob)
    (all : Bool) (res : List Glob × List Glob × Bool)
    (hall : ∀ p ∈ ps, (stripBang p).isSome)
    (h : buildLoop ps incB excB all = .ok res) :
    res.1 = incB ∧ res.2.2 = (all && ps.isEmpty) := by
  induction ps generalizing incB excB all with
  | nil =>
    simp only [buildLoop] at h
    cases h
    simp
  | cons q rest ih =>
    have hq : (stripBang q).isSome := hall q (List.mem_cons_self q rest)
    match hs : stripBang q with
    | none => rw [hs] at hq; simp at hq
    | some stripped =>
      simp only [buildLoop, hs] at h
      match hg : Glob.new stripped with
      | .error e => simp only [hg] at h; exact absurd h (by simp)
      | .ok g =>
        simp only [hg] at h
        have := ih incB (excB ++ [g]) false
          (fun p hp => hall p (List.mem_cons_of_mem q hp)) h
        simpa using this

theorem cbSpec_never (wf : Bool) (cs : String) (ff : FileFilter)
    (hsp : ∀ q : FsPath, ff.should_process q = false)
    (out p : FsPath) (n : FNode) :
    (cbSpec wf cs ff out p n).1 = "" := by
  match n with
  | .file nm (.ok cp) c =>
    by_cases h1 : cp = out
    · simp [cbSpec, h1]
    · simp [cbSpec, h1, hsp p]
  | .file nm (.error e) c => simp [cbSpec]
  | .other nm => simp [cbSpec]
  | .errEntry e => simp [cbSpec]
  | .dir nm es => simp [cbSpec]
  | .dirErr nm e => simp [cbSpec]

/-- C10.  All-exclusion pattern lists: when every pattern of a non-empty list
carries the `!` marker, the built filter has `include_all = false` and an
empty include set, `should_process` rejects every path, and no file bytes
whatsoever are rendered for any walked entry sequence. -/
theorem all_exclusions_empty_output (ps : List String) (ff : FileFilter)
    (hne : ps ≠ [])
    (hall : ∀ p ∈ ps, (stripBang p).isSome)
    (hff : FileFilter.new ps = .ok ff) :
    ff.include_all = false ∧ ff.inc.globs = [] ∧
    (∀ path : FsPath, ff.should_process path = false) ∧
    (∀ (wf : Bool) (cs : String) (out : FsPath) (es : List (FsPath × FNode)),
       (renderSeq wf cs ff out es).1 = "") := by
  rw [FileFilter.new] at hff
  match hb : buildLoop ps [] [] true with
  | .error e => rw [hb] at hff; exact absurd hff (by simp)
  | .ok res =>
    rw [hb] at hff
    obtain ⟨r1, r2⟩ := buildLoop_all_excl ps [] [] true res hall hb
    match res, r1, r2 with
    | (incB, excB, ia), r1, r2 =>
      simp only at r1 r2
      subst r1
      have hia : ia = false := by
        rw [r2]
        simp [List.isEmpty_iff, hne]
      subst hia
      simp only [if_false, GlobSet.build, Bool.false_eq_true] at hff
      cases hff
      have hsp : ∀ path : FsPath,
          FileFilter.should_process ⟨⟨[]⟩, ⟨excB⟩, false⟩ path = false := by
        intro path
        simp [FileFilter.should_process, GlobSet.is_match]
      refine ⟨rfl, rfl, hsp, ?_⟩
      intro wf cs out es
      induction es with
      | nil => rfl
      | cons e rest ihes =>
        rw [renderSeq]
        have h1 := cbSpec_never wf cs ⟨⟨[]⟩, ⟨excB⟩, false⟩ hsp out e.1 e.2
        match hq : cbSpec wf cs ⟨⟨[]⟩, ⟨excB⟩, false⟩ out e.1 e.2 with
        | (b, .ok u) =>
          rw [hq] at h1
          simp only at h1
          subst h1
          match hrs : renderSeq wf cs ⟨⟨[]⟩, ⟨excB⟩, false⟩ out rest with
          | (bs, r) =>
            rw [hrs] at ihes
            simp only at ihes
            simp [ihes, String.empty_append]
        | (b, .error er) =>
          rw [hq] at h1
          simp only at h1
          exact h1

def ffWitnessExcl : FileFilter :=
  FileFilter.mk (GlobSet.mk []) (GlobSet.mk [Glob.mk "a" [.lit 'a']]) false

theorem all_exclusions_empty_output_witness :
    (["!a"] : List String) ≠ []
      ∧ (∀ p ∈ (["!a"] : List String), (stripBang p).isSome)
      ∧ FileFilter.new ["!a"] = .ok ffWitnessExcl
      ∧ ffWitnessExcl.include_all = false
      ∧ ffWitnessExcl.inc.globs = []
      ∧ ffWitnessExcl.should_process ["x"] = false
      ∧ (renderSeq false "//" ffWitnessExcl ["o"]
          [(["x"], .file "x" (.ok ["x"]) (.ok "hi"))]).1 = "" :=
  ⟨by decide, by decide, rfl,
   (all_exclusions_empty_output ["!a"] ffWitnessExcl (by decide) (by decide) rfl).1,
   (all_exclusions_empty_output ["!a"] ffWitnessExcl (by decide) (by decide) rfl).2.1,
   (all_exclusions_empty_output ["!a"] ffWitnessExcl (by decide) (by decide) rfl).2.2.1 ["x"],
   (all_exclusions_empty_output ["!a"] ffWitnessExcl (by decide) (by decide) rfl).2.2.2
     false "//" ["o"] [(["x"], .file "x" (.ok ["x"]) (.ok "hi"))]⟩

theorem glob_new_ok_text {s : String} {g : Glob} (h : Glob.new s = .ok g) :
    g.text = s := by
  rw [Glob.new] at h
  match hp : parseGlobL s.toList (.normal true) with
  | .ok ts =>
    simp only [hp] at h
    injection h with h2
    rw [← h2]
  | .error k =>
    simp only [hp] at h
    exact absurd h (by simp)

theorem glob_new_error_glob {s : String} {ge : GlobError}
    (h : Glob.new s = .error ge) : ge.glob = some s := by
  rw [Glob.new] at h
  match hp : parseGlobL s.toList (.normal true) with
  | .ok ts =>
    simp only [hp] at h
    exact absurd h (by simp)
  | .error k =>
    simp only [hp] at h
    injection h with h2
    rw [← h2]

theorem buildLoop_ok (ps : List String) (incB excB : List Glob)
    (all : Bool) (res : List Glob × List Glob × Bool)
    (h : buildLoop ps incB excB all = .ok res) :
    res.1.map Glob.text
      = incB.map Glob.text ++ (ps.filter fun p => (stripBang p).isNone) ∧
    res.2.1.map Glob.text = excB.map Glob.text ++ ps.filterMap stripBang ∧
    res.2.2 = (all && ps.isEmpty) := by
  induction ps generalizing incB excB all with
  | nil =>
    simp only [buildLoop] at h
    injection h with h2
    rw [← h2]
    simp
  | cons q rest ih =>
    match hs : stripBang q with
    | some stripped =>
      simp only [buildLoop, hs] at h
      match hg : Glob.new stripped with
      | .error e =>
        simp only [hg] at h
        exact absurd h (by simp)
      | .ok g =>
        simp only [hg] at h
        obtain ⟨i1, i2, i3⟩ := ih incB (excB ++ [g]) false h
        refine ⟨?_, ?_, ?_⟩
        · rw [i1]
          simp [List.filter, hs]
        · rw [i2]
          simp [List.filterMap, hs, glob_new_ok_text hg, String.append_assoc]
        · rw [i3]
          simp
    | none =>
      simp only [buildLoop, hs] at h
      match hg : Glob.new q with
      | .error e =>
        simp only [hg] at h
        exact absurd h (by simp)
      | .ok g =>
        simp only [hg] at h
        obtain ⟨i1, i2, i3⟩ := ih (incB ++ [g]) excB false h
        refine ⟨?_, ?_, ?_⟩
        · rw [i1]
          simp [List.filter, hs, glob_new_ok_text hg]
        · rw [i2]
          simp [List.filterMap, hs]
        · rw [i3]
          simp

theorem buildLoop_error (ps : List String) (p : String) (ge : GlobError)
    (incB excB : List Glob) (all : Bool)
    (hfind : ps.find? (fun q => !(Glob.new ((stripBang q).getD q)).isOk)
        = some p)
    (hge : Glob.new ((stripBang p).getD p) = .error ge) :
    buildLoop ps incB excB all = .error ge := by
  induction ps generalizing incB excB all with
  | nil => simp [List.find?] at hfind
  | cons q rest ih =>
    by_cases hq : (!(Glob.new ((stripBang q).getD q)).isOk) = true
    · have hqp : q = p := by
        simp only [List.find?, hq, cond_true] at hfind
        injection hfind
      subst hqp
      match hs : stripBang q with
      | some stripped =>
        rw [hs] at hge
        simp only [Option.getD] at hge
        simp only [buildLoop, hs, hge]
      | none =>
        rw [hs] at hge
        simp only [Option.getD] at hge
        simp only [buildLoop, hs, hge]
    · have hq' : (Glob.new ((stripBang q).getD q)).isOk = true := by
        cases hb : (Glob.new ((stripBang q).getD q)).isOk with
        | true => rfl
        | false => rw [hb] at hq; exact absurd rfl hq
      have hqf : (!(Glob.new ((stripBang q).getD q)).isOk) = false := by
        rw [hq']
        rfl
      simp only [List.find?, hqf, cond_false] at hfind
      match hs : stripBang q with
      | some stripped =>
        have hne : (Glob.new stripped).isOk = true := by
          rw [hs] at hq'
          simpa using hq'
        match hg : Glob.new stripped with
        | .error e => rw [hg] at hne; simp [Except.isOk, Except.toBool] at hne
        | .ok g =>
          simp only [buildLoop, hs, hg]
          exact ih _ _ _ hfind
      | none =>
        have hne : (Glob.new q).isOk = true := by
          rw [hs] at hq'
          simpa using hq'
        match hg : Glob.new q with
        | .error e => rw [hg] at hne; simp [Except.isOk, Except.toBool] at hne
        | .ok g =>
          simp only [buildLoop, hs, hg]
          exact ih _ _ _ hfind

theorem fileFilter_new_ok (ps : List String) (ff : FileFilter)
    (h : FileFilter.new ps = .ok ff) :
    ff.exc.globs.map Glob.text = ps.filterMap stripBang ∧
    ff.inc.globs.map Glob.text
      = (ps.filter fun p => (stripBang p).isNone)
          ++ (if ps.isEmpty then ["**/*"] else []) ∧
    ff.include_all = ps.isEmpty := by
  match hb : buildLoop ps [] [] true with
  | .error e =>
    rw [FileFilter.new] at h
    simp only [hb] at h
    exact absurd h (by simp)
  | .ok (incB, excB, ia) =>
    obtain ⟨b1, b2, b3⟩ := buildLoop_ok ps [] [] true (incB, excB, ia) hb
    simp only [List.map_nil, List.nil_append] at b1 b2 b3
    cases hia : ia with
    | true =>
      have hemp : ps.isEmpty = true := by
        rw [hia] at b3
        simpa using b3.symm
      have hcomp : FileFilter.new ps
          = .ok (FileFilter.mk
              (GlobSet.mk (incB ++ [Glob.mk "**/*" [.recStar, .anySeq]]))
              (GlobSet.mk excB) true) := by
        rw [FileFilter.new, hb, hia]
        rfl
      rw [hcomp] at h
      injection h with h2
      rw [← h2]
      refine ⟨b2, ?_, hemp.symm⟩
      simp [List.map_append, b1, hemp]
    | false =>
      have hemp : ps.isEmpty = false := by
        rw [hia] at b3
        simpa using b3.symm
      have hcomp : FileFilter.new ps
          = .ok (FileFilter.mk (GlobSet.mk incB) (GlobSet.mk excB) false) := by
        rw [FileFilter.new, hb, hia]
        rfl
      rw [hcomp] at h
      injection h with h2
      rw [← h2]
      refine ⟨b2, ?_, hemp.symm⟩
      simp [b1, hemp]

theorem fileFilter_new_error (ps : List String) (p : String) (ge : GlobError)
    (hfind : ps.find? (fun q => !(Glob.new ((stripBang q).getD q)).isOk)
        = some p)
    (hge : Glob.new ((stripBang p).getD p) = .error ge) :
    FileFilter.new ps = .error ge ∧ ge.glob = some ((stripBang p).getD p) := by
  refine ⟨?_, glob_new_error_glob hge⟩
  rw [FileFilter.new, buildLoop_error ps p ge [] [] true hfind hge]

/-- C7 counterexample: for the pattern `![`, the negation marker is stripped
before glob compilation (line 73 of `main.rs`), so the resulting error
carries the marker-stripped text `[`, not the original pattern text `![` the
claim asserts. -/
theorem pattern_compilation_counterexample :
    FileFilter.new ["!["]
        = .error { glob := some "[", kind := .unclosedClass }
      ∧ (some "[" : Option String) ≠ some "![" :=
  ⟨rfl, by decide⟩

/-- C7 (amended).  Pattern compilation: each `!`-marked pattern is stripped
of the marker and compiled into the exclude set, every other pattern into
the include set (with the wildcard `**/*` added exactly when the list is
empty, in which case `include_all` is set); and when some pattern's glob
text fails to compile, building the filter fails with the underlying glob
error, which carries the pattern text as passed to the glob compiler — the
marker-stripped text for `!`-marked patterns, the original text
otherwise. -/
theorem pattern_compilation_amended (ps : List String) :
    (∀ ff, FileFilter.new ps = .ok ff →
        ff.exc.globs.map Glob.text = ps.filterMap stripBang ∧
        ff.inc.globs.map Glob.text
          = (ps.filter fun p => (stripBang p).isNone)
              ++ (if ps.isEmpty then ["**/*"] else []) ∧
        ff.include_all = ps.isEmpty) ∧
    (∀ p ge,
        ps.find? (fun q => !(Glob.new ((stripBang q).getD q)).isOk) = some p →
        Glob.new ((stripBang p).getD p) = .error ge →
        FileFilter.new ps = .error ge
          ∧ ge.glob = some ((stripBang p).getD p)) :=
  ⟨fun ff h => fileFilter_new_ok ps ff h,
   fun p ge h1 h2 => fileFilter_new_error ps p ge h1 h2⟩

def ffWitness7 : FileFilter :=
  FileFilter.mk (GlobSet.mk [Glob.mk "a" [.lit 'a']])
    (GlobSet.mk [Glob.mk "b" [.lit 'b']]) false

theorem pattern_compilation_amended_witness :
    (FileFilter.new ["a", "!b"] = .ok ffWitness7
      ∧ (ffWitness7.exc.globs.map Glob.text
            = (["a", "!b"] : List String).filterMap stripBang
         ∧ ffWitness7.inc.globs.map Glob.text
            = ((["a", "!b"] : List String).filter
                fun p => (stripBang p).isNone)
                ++ (if (["a", "!b"] : List String).isEmpty then ["**/*"] else [])
         ∧ ffWitness7.include_all = (["a", "!b"] : List String).isEmpty))
    ∧ ((["a", "!["] : List String).find?
          (fun q => !(Glob.new ((stripBang q).getD q)).isOk) = some "!["
       ∧ Glob.new ((stripBang "![").getD "![")
          = .error { glob := some "[", kind := .unclosedClass }
       ∧ (FileFilter.new ["a", "!["]
            = .error { glob := some "[", kind := .unclosedClass }
          ∧ ({ glob := some "[", kind := .unclosedClass } : GlobError).glob
            = some ((stripBang "![").getD "!["))) :=
  ⟨⟨rfl, (pattern_compilation_amended ["a", "!b"]).1 ffWitness7 rfl⟩,
   ⟨rfl, rfl,
    (pattern_compilation_amended ["a", "!["]).2 "!["
      { glob := some "[", kind := .unclosedClass } rfl rfl⟩⟩

theorem renderSeq_append (wf : Bool) (cs : String) (ff : FileFilter)
    (out : FsPath) (l1 l2 : List (FsPath × FNode)) :
    renderSeq wf cs ff out (l1 ++ l2) =
      match renderSeq wf cs ff out l1 with
      | (b1, .ok _) =>
        match renderSeq wf cs ff out l2 with
        | (b2, r) => (b1 ++ b2, r)
      | (b1, .error e) => (b1, .error e) := by
  induction l1 with
  | nil =>
    match hrs : renderSeq wf cs ff out l2 with
    | (b2, r) =>
      simp [renderSeq, hrs, String.empty_append]
  | cons e rest ih =>
    simp only [List.cons_append, renderSeq, List.append_eq]
    match hq : cbSpec wf cs ff out e.1 e.2 with
    | (b, .ok u) =>
      rw [ih]
      match hr1 : renderSeq wf cs ff out rest with
      | (bs, .ok u') =>
        match hr2 : renderSeq wf cs ff out l2 with
        | (b2, r) => simp [String.append_assoc]
      | (bs, .error er) => simp
    | (b, .error er) => simp

def fsCreateErr : FS :=
  { createOutput := .error (.os 5), outCanon := .ok ["o"],
    treeText := .ok "", rootDir := .other "r" }

def fsCanonErr : FS :=
  { createOutput := .ok (), outCanon := .error (.os 6),
    treeText := .ok "", rootDir := .other "r" }

mutual

/-- A tree on which the walk itself cannot fail: no directory with a failing
listing and no entry with a failing resolution anywhere. -/
def walkClean : FNode → Bool
  | .dir _ es => walkCleanList es
  | .dirErr _ _ => false
  | .errEntry _ => false
  | _ => true

/-- List form of `walkClean`. -/
def walkCleanList : List FNode → Bool
  | [] => true
  | c :: rest => walkClean c && walkCleanList rest

end

mutual

/-- Specification-side enumeration of the non-directory entries reachable
from a directory node within `budget` further directory levels, in listing
order; mirrors what the depth-bounded walk visits on clean trees. -/
def enumUpTo (budget : Nat) (n : FNode) (p : FsPath) : List (FsPath × FNode) :=
  match n with
  | .dir _ es => enumListUpTo budget es p
  | _ => []

/-- List form of `enumUpTo`. -/
def enumListUpTo (budget : Nat) (es : List FNode) (p : FsPath) :
    List (FsPath × FNode) :=
  match es with
  | [] => []
  | c :: rest =>
    (match c with
     | .dir _ _ =>
       if budget = 0 then [] else enumUpTo (budget - 1) c (p ++ [c.name])
     | .file nm ca co => [(p ++ [nm], .file nm ca co)]
     | .other nm => [(p ++ [nm], .other nm)]
     | _ => []) ++ enumListUpTo budget rest p

end

mutual

/-- Files lying at directory depth exactly `k` below the node `n` (whose own
path is `p`): for `k = 0` the file entries of `n`'s listing, for `k + 1`
the files at depth `k` of each subdirectory. -/
def filesAtDepth (k : Nat) (n : FNode) (p : FsPath) : List (FsPath × FNode) :=
  match n with
  | .dir _ es => filesAtDepthList k es p
  | _ => []

/-- List form of `filesAtDepth`. -/
def filesAtDepthList (k : Nat) (es : List FNode) (p : FsPath) :
    List (FsPath × FNode) :=
  match es with
  | [] => []
  | c :: rest =>
    (match k, c with
     | 0, .file nm ca co => [(p ++ [nm], .file nm ca co)]
     | Nat.succ k', .dir _ _ => filesAtDepth k' c (p ++ [c.name])
     | _, _ => []) ++ filesAtDepthList k rest p

end

example :
    (pureWalk 1 (FNode.dir "r" [.file "a" (.ok ["r", "a"]) (.ok "A")]) ["r"] 0).1
      = [(["r", "a"], FNode.file "a" (.ok ["r", "a"]) (.ok "A"))] := rfl

example : walkClean (FNode.dir "r" [.file "a" (.ok ["r", "a"]) (.ok "A")]) = true := by decide

theorem pureWalk_stop (maxD : Nat) (n : FNode) (p : FsPath) (depth : Nat)
    (h : depth > maxD) : pureWalk maxD n p depth = ([], .ok ()) := by
  rw [pureWalk.eq_def, if_pos h]

theorem pureWalk_dir (maxD : Nat) (nm : String) (es : List FNode) (p : FsPath)
    (depth : Nat) (h : ¬depth > maxD) :
    pureWalk maxD (.dir nm es) p depth = walkList maxD es p depth := by
  rw [pureWalk.eq_def, if_neg h]

theorem pureWalk_dirErr (maxD : Nat) (nm : String) (er : IoError) (p : FsPath)
    (depth : Nat) (h : ¬depth > maxD) :
    pureWalk maxD (.dirErr nm er) p depth = ([], .error er) := by
  rw [pureWalk.eq_def, if_neg h]

theorem pureWalk_file (maxD : Nat) (nm : String) (ca : Except IoError FsPath)
    (co : Except IoError String) (p : FsPath) (depth : Nat) :
    pureWalk maxD (.file nm ca co) p depth = ([], .ok ()) := by
  rw [pureWalk.eq_def]
  by_cases h : depth > maxD
  · rw [if_pos h]
  · rw [if_neg h]

theorem pureWalk_other (maxD : Nat) (nm : String) (p : FsPath) (depth : Nat) :
    pureWalk maxD (.other nm) p depth = ([], .ok ()) := by
  rw [pureWalk.eq_def]
  by_cases h : depth > maxD
  · rw [if_pos h]
  · rw [if_neg h]

theorem walkList_nil (maxD : Nat) (p : FsPath) (depth : Nat) :
    walkList maxD [] p depth = ([], .ok ()) := rfl

theorem walkList_cons_err (maxD : Nat) (er : IoError) (rest : List FNode)
    (p : FsPath) (depth : Nat) :
    walkList maxD (.errEntry er :: rest) p depth = ([], .error er) := rfl

theorem walkList_cons_file (maxD : Nat) (nm : String)
    (ca : Except IoError FsPath) (co : Except IoError String)
    (rest : List FNode) (p : FsPath) (depth : Nat) :
    walkList maxD (.file nm ca co :: rest) p depth
      = ((p ++ [nm], .file nm ca co) :: (walkList maxD rest p depth).1,
         (walkList maxD rest p depth).2) := rfl

theorem walkList_cons_other (maxD : Nat) (nm : String) (rest : List FNode)
    (p : FsPath) (depth : Nat) :
    walkList maxD (.other nm :: rest) p depth
      = ((p ++ [nm], .other nm) :: (walkList maxD rest p depth).1,
         (walkList maxD rest p depth).2) := rfl

theorem walkList_cons_dir (maxD : Nat) (nm : String) (sub : List FNode)
    (rest : List FNode) (p : FsPath) (depth : Nat) :
    walkList maxD (.dir nm sub :: rest) p depth
      = (match pureWalk maxD (.dir nm sub) (p ++ [nm]) (depth + 1) with
         | (l, Except.ok _) =>
             (l ++ (walkList maxD rest p depth).1, (walkList maxD rest p depth).2)
         | (l, Except.error e) => (l, Except.error e)) := rfl

theorem walkList_cons_dirErr (maxD : Nat) (nm : String) (er : IoError)
    (rest : List FNode) (p : FsPath) (depth : Nat) :
    walkList maxD (.dirErr nm er :: rest) p depth
      = (match pureWalk maxD (.dirErr nm er) (p ++ [nm]) (depth + 1) with
         | (l, Except.ok _) =>
             (l ++ (walkList maxD rest p depth).1, (walkList maxD rest p depth).2)
         | (l, Except.error e) => (l, Except.error e)) := rfl

mutual

/-- Depth soundness of the walk: every visited entry's path extends the
starting directory's path by one component plus at most the remaining depth
budget. -/
theorem pureWalk_bound (maxD : Nat) (n : FNode) (p : FsPath) (depth : Nat) :
    ∀ e ∈ (pureWalk maxD n p depth).1,
      e.1.length ≤ p.length + 1 + (maxD - depth) := by
  intro e he
  match n with
  | .dir nm es =>
    by_cases h : depth > maxD
    · rw [pureWalk_stop maxD _ p depth h] at he
      simp at he
    · rw [pureWalk_dir maxD nm es p depth h] at he
      exact walkList_bound maxD es p depth e he
  | .dirErr nm er =>
    by_cases h : depth > maxD
    · rw [pureWalk_stop maxD _ p depth h] at he
      simp at he
    · rw [pureWalk_dirErr maxD nm er p depth h] at he
      simp at he
  | .file nm ca co =>
    rw [pureWalk_file] at he
    simp at he
  | .other nm =>
    rw [pureWalk_other] at he
    simp at he
  | .errEntry er =>
    by_cases h : depth > maxD
    · rw [pureWalk_stop maxD _ p depth h] at he
      simp at he
    · rw [pureWalk.eq_def, if_neg h] at he
      simp at he

/-- List form of `pureWalk_bound`. -/
theorem walkList_bound (maxD : Nat) (es : List FNode) (p : FsPath)
    (depth : Nat) :
    ∀ e ∈ (walkList maxD es p depth).1,
      e.1.length ≤ p.length + 1 + (maxD - depth) := by
  intro e he
  match es with
  | [] =>
    rw [walkList_nil] at he
    simp at he
  | .errEntry er :: rest =>
    rw [walkList_cons_err] at he
    simp at he
  | .file nm ca co :: rest =>
    rw [walkList_cons_file] at he
    simp only [List.mem_cons] at he
    cases he with
    | inl heq =>
      rw [heq]
      simp only [List.length_append, List.length_cons, List.length_nil]
      omega
    | inr hmem => exact walkList_bound maxD rest p depth e hmem
  | .other nm :: rest =>
    rw [walkList_cons_other] at he
    simp only [List.mem_cons] at he
    cases he with
    | inl heq =>
      rw [heq]
      simp only [List.length_append, List.length_cons, List.length_nil]
      omega
    | inr hmem => exact walkList_bound maxD rest p depth e hmem
  | .dir nm sub :: rest =>
    rw [walkList_cons_dir] at he
    match hw : pureWalk maxD (.dir nm sub) (p ++ [nm]) (depth + 1) with
    | (l1, r1) =>
      rw [hw] at he
      have hsub : ∀ x ∈ l1, x.1.length ≤ p.length + 1 + (maxD - depth) := by
        intro x hx
        by_cases hdd : depth + 1 > maxD
        · rw [pureWalk_stop maxD _ _ _ hdd] at hw
          injection hw with h1 h2
          rw [← h1] at hx
          simp at hx
        · have hby := pureWalk_bound maxD (.dir nm sub) (p ++ [nm]) (depth + 1) x
            (by rw [hw]; exact hx)
          simp only [List.length_append, List.length_cons, List.length_nil] at hby
          omega
      cases r1 with
      | ok u =>
        simp only [List.mem_append] at he
        cases he with
        | inl h1 => exact hsub e h1
        | inr h2 => exact walkList_bound maxD rest p depth e h2
      | error er => exact hsub e he
  | .dirErr nm er :: rest =>
    rw [walkList_cons_dirErr] at he
    match hw : pureWalk maxD (.dirErr nm er) (p ++ [nm]) (depth + 1) with
    | (l1, r1) =>
      rw [hw] at he
      have hl1 : l1 = [] := by
        by_cases hdd : depth + 1 > maxD
        · rw [pureWalk_stop maxD _ _ _ hdd] at hw
          injection hw with h1 h2
          exact h1.symm
        · rw [pureWalk_dirErr maxD nm er _ _ hdd] at hw
          injection hw with h1 h2
          exact h1.symm
      cases r1 with
      | ok u =>
        subst hl1
        simp only [List.nil_append] at he
        exact walkList_bound maxD rest p depth e he
      | error er2 =>
        subst hl1
        simp at he

end

theorem enumUpTo_dir (budget : Nat) (nm : String) (es : List FNode)
    (p : FsPath) :
    enumUpTo budget (.dir nm es) p = enumListUpTo budget es p := rfl

theorem enumList_nil (budget : Nat) (p : FsPath) :
    enumListUpTo budget [] p = [] := rfl

theorem enumList_cons_file (budget : Nat) (nm : String)
    (ca : Except IoError FsPath) (co : Except IoError String)
    (rest : List FNode) (p : FsPath) :
    enumListUpTo budget (.file nm ca co :: rest) p
      = [(p ++ [nm], FNode.file nm ca co)] ++ enumListUpTo budget rest p := rfl

theorem enumList_cons_other (budget : Nat) (nm : String) (rest : List FNode)
    (p : FsPath) :
    enumListUpTo budget (.other nm :: rest) p
      = [(p ++ [nm], FNode.other nm)] ++ enumListUpTo budget rest p := rfl

theorem enumList_cons_dir (budget : Nat) (nm : String) (sub rest : List FNode)
    (p : FsPath) :
    enumListUpTo budget (.dir nm sub :: rest) p
      = (if budget = 0 then []
         else enumUpTo (budget - 1) (.dir nm sub) (p ++ [nm]))
          ++ enumListUpTo budget rest p := rfl

theorem enumList_cons_errEntry (budget : Nat) (er : IoError)
    (rest : List FNode) (p : FsPath) :
    enumListUpTo budget (.errEntry er :: rest) p
      = enumListUpTo budget rest p := rfl

mutual

/-- Walk characterization on clean trees: within the depth bound, the walk
succeeds and visits exactly the entries `enumUpTo` enumerates for the
remaining budget, in order. -/
theorem pureWalk_enum (maxD : Nat) (n : FNode) (p : FsPath) (depth : Nat)
    (hc : walkClean n = true) (hd : depth ≤ maxD) :
    pureWalk maxD n p depth = (enumUpTo (maxD - depth) n p, .ok ()) := by
  match n with
  | .dir nm es =>
    rw [pureWalk_dir maxD nm es p depth (by omega)]
    rw [walkList_enum maxD es p depth (by simpa [walkClean] using hc) hd]
    rfl
  | .dirErr nm er => simp [walkClean] at hc
  | .errEntry er => simp [walkClean] at hc
  | .file nm ca co =>
    rw [pureWalk_file]
    rfl
  | .other nm =>
    rw [pureWalk_other]
    rfl

/-- List form of `pureWalk_enum`. -/
theorem walkList_enum (maxD : Nat) (es : List FNode) (p : FsPath) (depth : Nat)
    (hc : walkCleanList es = true) (hd : depth ≤ maxD) :
    walkList maxD es p depth = (enumListUpTo (maxD - depth) es p, .ok ()) := by
  match es with
  | [] =>
    rw [walkList_nil]
    rfl
  | .errEntry er :: rest =>
    simp [walkCleanList, walkClean] at hc
  | .dirErr nm er :: rest =>
    simp [walkCleanList, walkClean] at hc
  | .file nm ca co :: rest =>
    simp only [walkCleanList, walkClean, Bool.and_eq_true] at hc
    rw [walkList_cons_file, walkList_enum maxD rest p depth hc.2 hd]
    rfl
  | .other nm :: rest =>
    simp only [walkCleanList, walkClean, Bool.and_eq_true] at hc
    rw [walkList_cons_other, walkList_enum maxD rest p depth hc.2 hd]
    rfl
  | .dir nm sub :: rest =>
    simp only [walkCleanList, Bool.and_eq_true] at hc
    rw [walkList_cons_dir]
    by_cases hdd : depth + 1 > maxD
    · rw [pureWalk_stop maxD _ _ _ hdd]
      rw [walkList_enum maxD rest p depth hc.2 hd]
      have hb0 : maxD - depth = 0 := by omega
      rw [enumList_cons_dir, hb0]
      rfl
    · rw [pureWalk_enum maxD (.dir nm sub) (p ++ [nm]) (depth + 1) hc.1 (by omega)]
      rw [walkList_enum maxD rest p depth hc.2 hd]
      rw [enumList_cons_dir]
      rw [if_neg (by omega : ¬maxD - depth = 0)]
      have hbeq : maxD - depth - 1 = maxD - (depth + 1) := by omega
      rw [hbeq]

end

mutual

/-- Files at directory depth exactly `k` are among the entries enumerated
with any budget of at least `k`. -/
theorem filesAtDepth_sub_enum (k budget : Nat) (n : FNode) (p : FsPath)
    (hk : k ≤ budget) :
    ∀ e ∈ filesAtDepth k n p, e ∈ enumUpTo budget n p := by
  intro e he
  match n with
  | .dir nm es => exact filesAtDepthList_sub_enum k budget es p hk e he
  | .dirErr nm er => exact absurd he (List.not_mem_nil e)
  | .errEntry er => exact absurd he (List.not_mem_nil e)
  | .file nm ca co => exact absurd he (List.not_mem_nil e)
  | .other nm => exact absurd he (List.not_mem_nil e)

/-- List form of `filesAtDepth_sub_enum`. -/
theorem filesAtDepthList_sub_enum (k budget : Nat) (es : List FNode)
    (p : FsPath) (hk : k ≤ budget) :
    ∀ e ∈ filesAtDepthList k es p, e ∈ enumListUpTo budget es p := by
  intro e he
  match es with
  | [] => exact absurd he (List.not_mem_nil e)
  | .file nm ca co :: rest =>
    match k with
    | 0 =>
      have he' : e ∈ [(p ++ [nm], FNode.file nm ca co)]
          ++ filesAtDepthList 0 rest p := he
      rw [enumList_cons_file, List.mem_append]
      rw [List.mem_append] at he'
      cases he' with
      | inl h1 => exact Or.inl h1
      | inr h2 => exact Or.inr (filesAtDepthList_sub_enum 0 budget rest p hk e h2)
    | Nat.succ k' =>
      have he' : e ∈ ([] : List (FsPath × FNode))
          ++ filesAtDepthList (k' + 1) rest p := he
      rw [enumList_cons_file, List.mem_append]
      rw [List.mem_append] at he'
      cases he' with
      | inl h1 => exact absurd h1 (List.not_mem_nil e)
      | inr h2 =>
        exact Or.inr (filesAtDepthList_sub_enum (k' + 1) budget rest p hk e h2)
  | .other nm :: rest =>
    have he' : e ∈ ([] : List (FsPath × FNode)) ++ filesAtDepthList k rest p := by
      match k with
      | 0 => exact he
      | Nat.succ k' => exact he
    rw [enumList_cons_other, List.mem_append]
    rw [List.mem_append] at he'
    cases he' with
    | inl h1 => exact absurd h1 (List.not_mem_nil e)
    | inr h2 => exact Or.inr (filesAtDepthList_sub_enum k budget rest p hk e h2)
  | .errEntry er :: rest =>
    have he' : e ∈ ([] : List (FsPath × FNode)) ++ filesAtDepthList k rest p := by
      match k with
      | 0 => exact he
      | Nat.succ k' => exact he
    rw [enumList_cons_errEntry]
    rw [List.mem_append] at he'
    cases he' with
    | inl h1 => exact absurd h1 (List.not_mem_nil e)
    | inr h2 => exact filesAtDepthList_sub_enum k budget rest p hk e h2
  | .dirErr nm er :: rest =>
    have he' : e ∈ ([] : List (FsPath × FNode)) ++ filesAtDepthList k rest p := by
      match k with
      | 0 => exact he
      | Nat.succ k' => exact he
    rw [List.mem_append] at he'
    cases he' with
    | inl h1 => exact absurd h1 (List.not_mem_nil e)
    | inr h2 =>
      have := filesAtDepthList_sub_enum k budget rest p hk e h2
      show e ∈ ([] : List (FsPath × FNode)) ++ enumListUpTo budget rest p
      rw [List.mem_append]
      exact Or.inr this
  | .dir nm sub :: rest =>
    match k with
    | 0 =>
      have he' : e ∈ ([] : List (FsPath × FNode)) ++ filesAtDepthList 0 rest p := he
      rw [enumList_cons_dir, List.mem_append]
      rw [List.mem_append] at he'
      cases he' with
      | inl h1 => exact absurd h1 (List.not_mem_nil e)
      | inr h2 => exact Or.inr (filesAtDepthList_sub_enum 0 budget rest p hk e h2)
    | Nat.succ k' =>
      have he' : e ∈ filesAtDepth k' (.dir nm sub) (p ++ [nm])
          ++ filesAtDepthList (k' + 1) rest p := he
      rw [enumList_cons_dir, List.mem_append]
      rw [List.mem_append] at he'
      cases he' with
      | inl h1 =>
        refine Or.inl ?_
        rw [if_neg (by omega : ¬budget = 0)]
        exact filesAtDepth_sub_enum k' (budget - 1) (.dir nm sub) (p ++ [nm])
          (by omega) e h1
      | inr h2 =>
        exact Or.inr
          (filesAtDepthList_sub_enum (k' + 1) budget rest p hk e h2)

end

/-- C4.  Depth bounding (root directory at depth 0, a file's depth being its
containing directory's depth): `visit_dirs` returns immediately for any
directory whose depth exceeds `max_depth`; every entry the walk visits lies
within `max_depth` of the root, so no deeper file can appear in the output;
and on trees whose walk cannot fail, every file at depth exactly
`k ≤ max_depth` is visited. -/
theorem depth_bounding (cli : Cli) (n : FNode) (p0 : FsPath) :
    (∀ {σ : Type} (ff : FileFilter)
        (cb : FsPath → FNode → σ → σ × Except IoError Unit)
        (depth : Nat) (s : σ), depth > cli.max_depth →
        visit_dirs cli ff cb n p0 depth s = (s, .ok ())) ∧
    (∀ e ∈ (pureWalk cli.max_depth n p0 0).1,
        e.1.length ≤ p0.length + 1 + cli.max_depth) ∧
    (walkClean n = true →
        ∀ k, k ≤ cli.max_depth →
        ∀ e ∈ filesAtDepth k n p0,
          e ∈ (pureWalk cli.max_depth n p0 0).1) := by
  refine ⟨?_, ?_, ?_⟩
  · intro σ ff cb depth s h
    rw [visit_dirs.eq_def, if_pos h]
  · intro e he
    have := pureWalk_bound cli.max_depth n p0 0 e he
    simpa using this
  · intro hc k hk e he
    rw [pureWalk_enum cli.max_depth n p0 0 hc (Nat.zero_le _)]
    show e ∈ enumUpTo (cli.max_depth - 0) n p0
    rw [Nat.sub_zero]
    exact filesAtDepth_sub_enum k cli.max_depth n p0 hk e he

def cliDepthW : Cli :=
  { directory := ["r"], output := ["o"], patterns := [], max_depth := 1,
    write_filenames := false, write_tree := false, comment_style := "//",
    buffer_size := 8 }

def treeDepthW : FNode :=
  .dir "r"
    [ .file "a" (.ok ["r", "a"]) (.ok "A"),
      .dir "s" [.file "b" (.ok ["r", "s", "b"]) (.ok "B")],
      .dir "t" [.dir "u" [.file "c" (.ok ["r", "t", "u", "c"]) (.ok "C")]] ]

def entryBW : FsPath × FNode :=
  (["r", "s", "b"], .file "b" (.ok ["r", "s", "b"]) (.ok "B"))

theorem depth_bounding_witness :
    ((2 : Nat) > cliDepthW.max_depth
      ∧ visit_dirs cliDepthW ffWitnessAll
          (fun (_ : FsPath) (_ : FNode) (s : Nat) => (s, .ok ()))
          treeDepthW ["r"] 2 0 = (0, .ok ()))
    ∧ (entryBW ∈ (pureWalk cliDepthW.max_depth treeDepthW ["r"] 0).1
       ∧ entryBW.1.length ≤ (["r"] : FsPath).length + 1 + cliDepthW.max_depth)
    ∧ (walkClean treeDepthW = true
       ∧ (1 : Nat) ≤ cliDepthW.max_depth
       ∧ entryBW ∈ filesAtDepth 1 treeDepthW ["r"]
       ∧ entryBW ∈ (pureWalk cliDepthW.max_depth treeDepthW ["r"] 0).1) := by
  have hmem : entryBW ∈ (pureWalk cliDepthW.max_depth treeDepthW ["r"] 0).1 := by
    show entryBW
      ∈ [(["r", "a"], FNode.file "a" (.ok ["r", "a"]) (.ok "A")), entryBW]
    exact List.Mem.tail _ (List.Mem.head _)
  have hmem2 : entryBW ∈ filesAtDepth 1 treeDepthW ["r"] := by
    show entryBW ∈ [entryBW]
    exact List.Mem.head _
  refine ⟨⟨by decide,
      (depth_bounding cliDepthW treeDepthW ["r"]).1 ffWitnessAll
        (fun (_ : FsPath) (_ : FNode) (s : Nat) => (s, .ok ())) 2 0 (by decide)⟩,
    ⟨hmem, (depth_bounding cliDepthW treeDepthW ["r"]).2.1 entryBW hmem⟩,
    ⟨by decide, by decide, hmem2,
      (depth_bounding cliDepthW treeDepthW ["r"]).2.2 (by decide) 1 (by decide)
        entryBW hmem2⟩⟩

/-- Model of the opened output `File` underneath the buffered writer: the
bytes the operating system has accepted so far, plus the device's write
behaviour — `cap = none` is a device that accepts every write, while
`cap = some c` accepts a write syscall only while the total stays within
`c` bytes and fails every further syscall with `err` (a disk-full style
fault).  A failing syscall writes nothing. -/
structure OutFile where
  written : String
  cap : Option Nat
  err : IoError

/-- One write syscall against the output file. -/
def OutFile.write (f : OutFile) (s : String) : Except IoError OutFile :=
  match f.cap with
  | none => .ok { f with written := f.written ++ s }
  | some c =>
    if f.written.length + s.length ≤ c then
      .ok { f with written := f.written ++ s }
    else .error f.err

/-- Write-fallible model of `std::io::BufWriter`, keeping the `io::Result`
of Rust's writes that the plain `BufWriter` model collapses: the same
buffering discipline over a device whose syscalls can fail. -/
structure BufWriterF where
  capacity : Nat
  buf : String
  dev : OutFile

/-- Fallible counterpart of `BufWriter.new`. -/
def BufWriterF.new (capacity : Nat) (dev : OutFile) : BufWriterF :=
  { capacity := capacity, buf := "", dev := dev }

/-- Fallible buffer flush (`flush_buf`): no syscall when the buffer is
empty, otherwise one write syscall whose failure is propagated. -/
def BufWriterF.flushBuf (w : BufWriterF) : Except IoError BufWriterF :=
  if w.buf = "" then .ok w
  else
    match w.dev.write w.buf with
    | .error e => .error e
    | .ok d => .ok { w with buf := "", dev := d }

/-- Post-flush step of the fallible `write_all`: write the bytes through
directly when they are at least a buffer's worth (`cap0` is the writer's
capacity), buffer them otherwise; a syscall failure propagates. -/
def BufWriterF.put (w : BufWriterF) (cap0 : Nat) (s : String) :
    Except IoError BufWriterF :=
  if cap0 ≤ s.length then
    match w.dev.write s with
    | .error e => .error e
    | .ok d => .ok { w with dev := d }
  else .ok { w with buf := w.buf ++ s }

/-- Fallible `BufWriter::write_all`, with the same branch structure as the
plain model's `BufWriter.write_all`: flush first when the incoming bytes
would overflow the buffer, then `put` the bytes; any syscall failure
propagates. -/
def BufWriterF.write_all (w : BufWriterF) (s : String) :
    Except IoError BufWriterF :=
  match (if w.capacity < w.buf.length + s.length then w.flushBuf
         else .ok w : Except IoError BufWriterF) with
  | .error e => .error e
  | .ok w1 => w1.put w.capacity s

/-- Fallible `BufWriter::flush`. -/
def BufWriterF.flush (w : BufWriterF) : Except IoError BufWriterF :=
  w.flushBuf

/-- Bytes observable through the fallible writer: what the device accepted
plus the not-yet-flushed buffer. -/
def contentOfF (w : BufWriterF) : String :=
  w.dev.written ++ w.buf

/-- The per-entry callback closure of `concatenate_files` (lines 120-139)
with the writer's `io::Result` kept: identical to `cbEngine` except that
each of the three writes (`writeln!` of the provenance line, `write_all` of
the bytes, `writeln!` of the trailing newline) can fail, and its failure is
returned through `?` with the writer state as it stood. -/
def cbEngineF (cli : Cli) (ff : FileFilter) (output_path : FsPath)
    (p : FsPath) (n : FNode) (w : BufWriterF) :
    BufWriterF × Except IoError Unit :=
  match n with
  | .file _ canon contents =>
    match canon with
    | .error e => (w, .error e)
    | .ok canonical_path =>
      if canonical_path = output_path then (w, .ok ())
      else if ff.should_process p then
        match (if cli.write_filenames
               then w.write_all (cli.comment_style ++ " " ++ pathStr p ++ "\n")
               else .ok w : Except IoError BufWriterF) with
        | .error e => (w, .error e)
        | .ok w1 =>
          match contents with
          | .error e => (w1, .error e)
          | .ok c =>
            match w1.write_all c with
            | .error e => (w1, .error e)
            | .ok w2 =>
              match w2.write_all "\n" with
              | .error e => (w2, .error e)
              | .ok w3 => (w3, .ok ())
      else (w, .ok ())
  | _ => (w, .ok ())

/-- Model of `concatenate_files` (lines 103-145) with the writer's
`io::Result` kept: the same step order as `concatenate_files` — create,
canonicalize, build filter, optional tree write, walk, single final
flush — but every write and the final flush can fail, aborting the run with
that error and the writer state (hence the bytes already on the device)
as it stood. -/
def concatenate_filesF (fs : FS) (cli : Cli) (dev : OutFile) :
    BufWriterF × Except IoError Unit :=
  match fs.createOutput with
  | .error e => (BufWriterF.new cli.buffer_size dev, .error e)
  | .ok _ =>
    let writer := BufWriterF.new cli.buffer_size dev
    match fs.outCanon with
    | .error e => (writer, .error e)
    | .ok output_path =>
      match FileFilter.new cli.patterns with
      | .error e => (writer, .error (.invalidInput e))
      | .ok file_filter =>
        match (if cli.write_tree then
                match fs.treeText with
                | .error e => .error e
                | .ok t => writer.write_all (t ++ "\n")
              else .ok writer : Except IoError BufWriterF) with
        | .error e => (writer, .error e)
        | .ok writer1 =>
          match visit_dirs cli file_filter
              (cbEngineF cli file_filter output_path)
              fs.rootDir cli.directory 0 writer1 with
          | (w, .error e) => (w, .error e)
          | (w, .ok _) =>
            match w.flush with
            | .error e => (w, .error e)
            | .ok w2 => (w2, .ok ())

theorem bw_write_eq_a (w : BufWriter) (s : String)
    (hov : w.capacity < w.buf.length + s.length) (hth : w.capacity ≤ s.length) :
    w.write_all s = { w.flushBuf with inner := w.flushBuf.inner ++ s } := by
  rw [BufWriter.write_all]
  rw [if_pos hov, if_pos hth]

theorem bw_write_eq_b (w : BufWriter) (s : String)
    (hov : w.capacity < w.buf.length + s.length) (hth : ¬w.capacity ≤ s.length) :
    w.write_all s = { w.flushBuf with buf := w.flushBuf.buf ++ s } := by
  rw [BufWriter.write_all]
  rw [if_pos hov, if_neg hth]

theorem bw_write_eq_c (w : BufWriter) (s : String)
    (hov : ¬w.capacity < w.buf.length + s.length) (hth : w.capacity ≤ s.length) :
    w.write_all s = { w with inner := w.inner ++ s } := by
  rw [BufWriter.write_all]
  rw [if_neg hov, if_pos hth]

theorem bw_write_eq_d (w : BufWriter) (s : String)
    (hov : ¬w.capacity < w.buf.length + s.length) (hth : ¬w.capacity ≤ s.length) :
    w.write_all s = { w with buf := w.buf ++ s } := by
  rw [BufWriter.write_all]
  rw [if_neg hov, if_neg hth]

/-- Correspondence between the plain writer (write failures collapsed) and
the fallible writer over a device that never fails: same capacity, same
buffer, and the plain model's `inner` bytes are exactly the bytes the
device accepted. -/
def Agrees (w : BufWriter) (wF : BufWriterF) : Prop :=
  w.capacity = wF.capacity ∧ w.buf = wF.buf ∧ wF.dev.cap = none
    ∧ w.inner = wF.dev.written

theorem agrees_contentOf {w : BufWriter} {wF : BufWriterF} (h : Agrees w wF) :
    contentOfF wF = contentOf w := by
  obtain ⟨h1, h2, h3, h4⟩ := h
  rw [contentOfF, contentOf, h2, h4]

theorem flushBuf_agrees {w : BufWriter} {wF : BufWriterF} (h : Agrees w wF) :
    ∃ wF', wF.flushBuf = .ok wF' ∧ Agrees w.flushBuf wF' := by
  obtain ⟨h1, h2, h3, h4⟩ := h
  rw [BufWriterF.flushBuf]
  by_cases hb : wF.buf = ""
  · rw [if_pos hb]
    refine ⟨wF, rfl, h1, ?_, h3, ?_⟩
    · show ("" : String) = wF.buf
      exact hb.symm
    · show w.inner ++ w.buf = wF.dev.written
      rw [h2, hb, String.append_empty, h4]
  · rw [if_neg hb]
    rw [show wF.dev.write wF.buf
          = .ok (OutFile.mk (wF.dev.written ++ wF.buf) none wF.dev.err) from by
        simp only [OutFile.write, h3]]
    refine ⟨_, rfl, h1, rfl, rfl, ?_⟩
    show w.inner ++ w.buf = wF.dev.written ++ wF.buf
    rw [h2, h4]

theorem write_all_agrees {w : BufWriter} {wF : BufWriterF} (s : String)
    (h : Agrees w wF) :
    ∃ wF', wF.write_all s = .ok wF' ∧ Agrees (w.write_all s) wF' := by
  have h1 := h.1
  have h2 := h.2.1
  rw [BufWriterF.write_all]
  rw [show wF.capacity = w.capacity from h1.symm,
      show wF.buf = w.buf from h2.symm]
  by_cases hov : w.capacity < w.buf.length + s.length
  · rw [if_pos hov]
    obtain ⟨wf1, hf1, ha1⟩ := flushBuf_agrees h
    rw [hf1]
    show ∃ wF', wf1.put w.capacity s = .ok wF' ∧ Agrees (w.write_all s) wF'
    obtain ⟨a1, a2, a3, a4⟩ := ha1
    rw [BufWriterF.put]
    by_cases hth : w.capacity ≤ s.length
    · rw [if_pos hth]
      rw [show wf1.dev.write s
            = .ok (OutFile.mk (wf1.dev.written ++ s) none wf1.dev.err) from by
          simp only [OutFile.write, a3]]
      refine ⟨_, rfl, ?_, ?_, rfl, ?_⟩
      · rw [bw_write_eq_a w s hov hth]
        exact a1
      · rw [bw_write_eq_a w s hov hth]
        exact a2
      · rw [bw_write_eq_a w s hov hth]
        show w.flushBuf.inner ++ s = wf1.dev.written ++ s
        rw [a4]
    · rw [if_neg hth]
      refine ⟨_, rfl, ?_, ?_, a3, ?_⟩
      · rw [bw_write_eq_b w s hov hth]
        exact a1
      · rw [bw_write_eq_b w s hov hth]
        show w.flushBuf.buf ++ s = wf1.buf ++ s
        rw [a2]
      · rw [bw_write_eq_b w s hov hth]
        exact a4
  · rw [if_neg hov]
    show ∃ wF', wF.put w.capacity s = .ok wF' ∧ Agrees (w.write_all s) wF'
    have h3 := h.2.2.1
    have h4 := h.2.2.2
    rw [BufWriterF.put]
    by_cases hth : w.capacity ≤ s.length
    · rw [if_pos hth]
      rw [show wF.dev.write s
            = .ok (OutFile.mk (wF.dev.written ++ s) none wF.dev.err) from by
          simp only [OutFile.write, h3]]
      refine ⟨_, rfl, ?_, ?_, rfl, ?_⟩
      · rw [bw_write_eq_c w s hov hth]
        exact h1
      · rw [bw_write_eq_c w s hov hth]
        exact h2
      · rw [bw_write_eq_c w s hov hth]
        show w.inner ++ s = wF.dev.written ++ s
        rw [h4]
    · rw [if_neg hth]
      refine ⟨_, rfl, ?_, ?_, h3, ?_⟩
      · rw [bw_write_eq_d w s hov hth]
        exact h1
      · rw [bw_write_eq_d w s hov hth]
        show w.buf ++ s = wF.buf ++ s
        rw [h2]
      · rw [bw_write_eq_d w s hov hth]
        exact h4

/-- Callback agreement: over a never-failing device the fallible engine
callback returns the same result as the plain one and keeps the writers in
agreement. -/
theorem cbEngineF_agrees (cli : Cli) (ff : FileFilter) (out p : FsPath)
    (n : FNode) {w : BufWriter} {wF : BufWriterF} (h : Agrees w wF) :
    ∃ wF', cbEngineF cli ff out p n wF
        = (wF', (cbEngine cli ff out p n w).2)
      ∧ Agrees (cbEngine cli ff out p n w).1 wF' := by
  match n with
  | .other nm => exact ⟨wF, rfl, h⟩
  | .errEntry e => exact ⟨wF, rfl, h⟩
  | .dir nm sub => exact ⟨wF, rfl, h⟩
  | .dirErr nm e => exact ⟨wF, rfl, h⟩
  | .file nm canon contents =>
    match canon with
    | .error e => exact ⟨wF, rfl, h⟩
    | .ok cp =>
      by_cases hcp : cp = out
      · refine ⟨wF, ?_, ?_⟩
        · simp [cbEngineF, cbEngine, hcp]
        · simpa [cbEngine, hcp] using h
      · by_cases hsp : ff.should_process p = true
        · by_cases hwf : cli.write_filenames = true
          · obtain ⟨w1F, hw1, ha1⟩ :=
              write_all_agrees (cli.comment_style ++ " " ++ pathStr p ++ "\n") h
            match contents with
            | .error e =>
              refine ⟨w1F, ?_, ?_⟩
              · simp [cbEngineF, cbEngine, hcp, hsp, hwf, hw1]
              · simpa [cbEngine, hcp, hsp, hwf] using ha1
            | .ok c =>
              obtain ⟨w2F, hw2, ha2⟩ := write_all_agrees c ha1
              obtain ⟨w3F, hw3, ha3⟩ := write_all_agrees "\n" ha2
              refine ⟨w3F, ?_, ?_⟩
              · simp [cbEngineF, cbEngine, hcp, hsp, hwf, hw1, hw2, hw3]
              · simpa [cbEngine, hcp, hsp, hwf] using ha3
          · match contents with
            | .error e =>
              refine ⟨wF, ?_, ?_⟩
              · simp [cbEngineF, cbEngine, hcp, hsp, hwf]
              · simpa [cbEngine, hcp, hsp, hwf] using h
            | .ok c =>
              obtain ⟨w2F, hw2, ha2⟩ := write_all_agrees c h
              obtain ⟨w3F, hw3, ha3⟩ := write_all_agrees "\n" ha2
              refine ⟨w3F, ?_, ?_⟩
              · simp [cbEngineF, cbEngine, hcp, hsp, hwf, hw2, hw3]
              · simpa [cbEngine, hcp, hsp, hwf] using ha3
        · refine ⟨wF, ?_, ?_⟩
          · simp [cbEngineF, cbEngine, hcp, hsp]
          · simpa [cbEngine, hcp, hsp] using h

/-- Sequence agreement: a pointwise-agreeing pair of callbacks keeps the
threaded writers in agreement over any walked entry sequence and returns
identical results. -/
theorem seqRun_agrees
    (cbA : FsPath → FNode → BufWriter → BufWriter × Except IoError Unit)
    (cbF : FsPath → FNode → BufWriterF → BufWriterF × Except IoError Unit)
    (hcb : ∀ p n (w : BufWriter) (wF : BufWriterF), Agrees w wF →
      ∃ wF', cbF p n wF = (wF', (cbA p n w).2) ∧ Agrees (cbA p n w).1 wF')
    (es : List (FsPath × FNode)) (tail : Except IoError Unit)
    {s : BufWriter} {sF : BufWriterF} (h : Agrees s sF) :
    ∃ sF', seqRun cbF es tail sF = (sF', (seqRun cbA es tail s).2)
      ∧ Agrees (seqRun cbA es tail s).1 sF' := by
  induction es generalizing s sF with
  | nil => exact ⟨sF, rfl, h⟩
  | cons e rest ih =>
    obtain ⟨wF', hcb1, hcb2⟩ := hcb e.1 e.2 s sF h
    simp only [seqRun]
    match hA : cbA e.1 e.2 s with
    | (s', r) =>
      rw [hA] at hcb1 hcb2
      simp only at hcb1 hcb2
      rw [hcb1]
      cases r with
      | ok u =>
        obtain ⟨sF', hs1, hs2⟩ := ih hcb2
        exact ⟨sF', hs1, hs2⟩
      | error er => exact ⟨wF', rfl, hcb2⟩

/-- The plain engine is exactly the fallible engine run over a device that
never fails: same result and same observable bytes, for every filesystem
snapshot and configuration.  The plain model is thus the writes-succeed
projection of the fallible one. -/
theorem concatF_agrees (fs : FS) (cli : Cli) (dev : OutFile)
    (hc : dev.cap = none) (hw : dev.written = "") :
    (concatenate_filesF fs cli dev).2 = (concatenate_files fs cli).2 ∧
    contentOfF (concatenate_filesF fs cli dev).1
      = contentOf (concatenate_files fs cli).1 := by
  have h0 : Agrees (BufWriter.new cli.buffer_size)
      (BufWriterF.new cli.buffer_size dev) := ⟨rfl, rfl, hc, hw.symm⟩
  have hnewF : contentOfF (BufWriterF.new cli.buffer_size dev) = "" := by
    simp [contentOfF, BufWriterF.new, hw, String.append_empty]
  match hcr : fs.createOutput with
  | .error e =>
    have hF : concatenate_filesF fs cli dev
        = (BufWriterF.new cli.buffer_size dev, .error e) := by
      rw [concatenate_filesF, hcr] <;> rfl
    have hP : concatenate_files fs cli
        = (BufWriter.new cli.buffer_size, .error e) := by
      rw [concatenate_files, hcr] <;> rfl
    rw [hF, hP]
    exact ⟨rfl, by rw [hnewF, contentOf_new]⟩
  | .ok u =>
    match hcn : fs.outCanon with
    | .error e =>
      have hF : concatenate_filesF fs cli dev
          = (BufWriterF.new cli.buffer_size dev, .error e) := by
        rw [concatenate_filesF, hcr, hcn] <;> rfl
      have hP : concatenate_files fs cli
          = (BufWriter.new cli.buffer_size, .error e) := by
        rw [concatenate_files, hcr, hcn] <;> rfl
      rw [hF, hP]
      exact ⟨rfl, by rw [hnewF, contentOf_new]⟩
    | .ok out =>
      match hff : FileFilter.new cli.patterns with
      | .error e =>
        have hF : concatenate_filesF fs cli dev
            = (BufWriterF.new cli.buffer_size dev, .error (.invalidInput e)) := by
          rw [concatenate_filesF, hcr, hcn, hff] <;> rfl
        have hP : concatenate_files fs cli
            = (BufWriter.new cli.buffer_size, .error (.invalidInput e)) := by
          rw [concatenate_files, hcr, hcn, hff] <;> rfl
        rw [hF, hP]
        exact ⟨rfl, by rw [hnewF, contentOf_new]⟩
      | .ok ff =>
        have core : ∀ (w1 : BufWriter) (wF1 : BufWriterF), Agrees w1 wF1 →
            (match visit_dirs cli ff (cbEngineF cli ff out)
                fs.rootDir cli.directory 0 wF1 with
             | (w, Except.error e) => (w, Except.error e)
             | (w, Except.ok _) =>
               match w.flush with
               | Except.error e => (w, Except.error e)
               | Except.ok w2 => (w2, Except.ok ())).2
              = (match visit_dirs cli ff (cbEngine cli ff out)
                    fs.rootDir cli.directory 0 w1 with
                 | (w, Except.error e) => (w, Except.error e)
                 | (w, Except.ok _) => (w.flush, Except.ok ())).2
            ∧ contentOfF (match visit_dirs cli ff (cbEngineF cli ff out)
                  fs.rootDir cli.directory 0 wF1 with
               | (w, Except.error e) => (w, Except.error e)
               | (w, Except.ok _) =>
                 match w.flush with
                 | Except.error e => (w, Except.error e)
                 | Except.ok w2 => (w2, Except.ok ())).1
              = contentOf (match visit_dirs cli ff (cbEngine cli ff out)
                    fs.rootDir cli.directory 0 w1 with
                 | (w, Except.error e) => (w, Except.error e)
                 | (w, Except.ok _) => (w.flush, Except.ok ())).1 := by
          intro w1 wF1 hA
          rw [visit_dirs_eq_seqRun cli ff (cbEngine cli ff out)
                fs.rootDir cli.directory 0 w1,
              visit_dirs_eq_seqRun cli ff (cbEngineF cli ff out)
                fs.rootDir cli.directory 0 wF1]
          obtain ⟨sF', hs1, hs2⟩ := seqRun_agrees (cbEngine cli ff out)
            (cbEngineF cli ff out)
            (fun p n w wF hag => cbEngineF_agrees cli ff out p n hag)
            (pureWalk cli.max_depth fs.rootDir cli.directory 0).1
            (pureWalk cli.max_depth fs.rootDir cli.directory 0).2 hA
          rw [hs1]
          match hq : seqRun (cbEngine cli ff out)
              (pureWalk cli.max_depth fs.rootDir cli.directory 0).1
              (pureWalk cli.max_depth fs.rootDir cli.directory 0).2 w1 with
          | (s1, r1) =>
            rw [hq] at hs2
            simp only at hs2
            cases r1 with
            | ok u1 =>
              obtain ⟨sF2, hfl, hfl2⟩ := flushBuf_agrees hs2
              constructor
              · show (match sF'.flush with
                      | Except.error e => (sF', Except.error e)
                      | Except.ok w2 => (w2, Except.ok ())).2
                    = ((s1.flush, Except.ok ())).2
                rw [show sF'.flush = Except.ok sF2 from hfl]
              · show contentOfF (match sF'.flush with
                      | Except.error e => (sF', Except.error e)
                      | Except.ok w2 => (w2, Except.ok ())).1
                    = contentOf s1.flush
                rw [show sF'.flush = Except.ok sF2 from hfl]
                show contentOfF sF2 = contentOf s1.flush
                rw [agrees_contentOf hfl2, contentOf_flushBuf, contentOf_flush]
            | error e1 =>
              constructor
              · rfl
              · show contentOfF sF' = contentOf s1
                exact agrees_contentOf hs2
        cases ht : cli.write_tree with
        | false =>
          have hF : concatenate_filesF fs cli dev
              = (match visit_dirs cli ff (cbEngineF cli ff out)
                    fs.rootDir cli.directory 0
                    (BufWriterF.new cli.buffer_size dev) with
                 | (w, Except.error e) => (w, Except.error e)
                 | (w, Except.ok _) =>
                   match w.flush with
                   | Except.error e => (w, Except.error e)
                   | Except.ok w2 => (w2, Except.ok ())) := by
            rw [concatenate_filesF, hcr, hcn, hff, ht] <;> rfl
          have hP : concatenate_files fs cli
              = (match visit_dirs cli ff (cbEngine cli ff out)
                    fs.rootDir cli.directory 0 (BufWriter.new cli.buffer_size) with
                 | (w, Except.error e) => (w, Except.error e)
                 | (w, Except.ok _) => (w.flush, Except.ok ())) := by
            rw [concatenate_files, hcr, hcn, hff, ht] <;> rfl
          rw [hF, hP]
          exact core _ _ h0
        | true =>
          match htt : fs.treeText with
          | .error e =>
            have hF : concatenate_filesF fs cli dev
                = (BufWriterF.new cli.buffer_size dev, .error e) := by
              rw [concatenate_filesF, hcr, hcn, hff, ht, htt] <;> rfl
            have hP : concatenate_files fs cli
                = (BufWriter.new cli.buffer_size, .error e) := by
              rw [concatenate_files, hcr, hcn, hff, ht, htt] <;> rfl
            rw [hF, hP]
            exact ⟨rfl, by rw [hnewF, contentOf_new]⟩
          | .ok t =>
            obtain ⟨wF1, hw1, ha1⟩ := write_all_agrees (t ++ "\n") h0
            have hF : concatenate_filesF fs cli dev
                = (match (BufWriterF.new cli.buffer_size dev).write_all
                      (t ++ "\n") with
                   | Except.error e =>
                     (BufWriterF.new cli.buffer_size dev, Except.error e)
                   | Except.ok writer1 =>
                     match visit_dirs cli ff (cbEngineF cli ff out)
                         fs.rootDir cli.directory 0 writer1 with
                     | (w, Except.error e) => (w, Except.error e)
                     | (w, Except.ok _) =>
                       match w.flush with
                       | Except.error e => (w, Except.error e)
                       | Except.ok w2 => (w2, Except.ok ())) := by
              rw [concatenate_filesF, hcr, hcn, hff, ht, htt] <;> rfl
            have hP : concatenate_files fs cli
                = (match visit_dirs cli ff (cbEngine cli ff out)
                      fs.rootDir cli.directory 0
                      ((BufWriter.new cli.buffer_size).write_all (t ++ "\n")) with
                   | (w, Except.error e) => (w, Except.error e)
                   | (w, Except.ok _) => (w.flush, Except.ok ())) := by
              rw [concatenate_files, hcr, hcn, hff, ht, htt] <;> rfl
            rw [hF, hP, hw1]
            exact core _ _ ha1

/-- C6.  Fail-fast error propagation, over the fallible-writer model: every
I/O error aborts the run immediately and propagates to the caller — a
failure while creating or canonicalizing the output, a failing pattern
compilation (surfaced as `InvalidInput`), a `read_dir` failure while
listing a directory, a failing entry resolution (which also drops the rest
of the listing), a failing file read, and every failing write to the
output (provenance line, file bytes, trailing newline, tree block, final
flush).  No offending item is skipped — the first failing callback ends
the entry sequence with the remaining entries unprocessed — and the writer
state reached before the failure is returned as-is (`renderSeq` keeps
every byte rendered before the error), so the partially written output is
left in place with no rollback. -/
theorem fail_fast_propagation :
    (∀ (fs : FS) (cli : Cli) (dev : OutFile) (e : IoError),
       fs.createOutput = .error e →
       concatenate_filesF fs cli dev
         = (BufWriterF.new cli.buffer_size dev, .error e)) ∧
    (∀ (fs : FS) (cli : Cli) (dev : OutFile) (e : IoError),
       fs.createOutput = .ok () → fs.outCanon = .error e →
       concatenate_filesF fs cli dev
         = (BufWriterF.new cli.buffer_size dev, .error e)) ∧
    (∀ (fs : FS) (cli : Cli) (dev : OutFile) (out : FsPath) (g : GlobError),
       fs.createOutput = .ok () → fs.outCanon = .ok out →
       FileFilter.new cli.patterns = .error g →
       concatenate_filesF fs cli dev
         = (BufWriterF.new cli.buffer_size dev, .error (.invalidInput g))) ∧
    (∀ (maxD : Nat) (nm : String) (er : IoError) (p : FsPath) (depth : Nat),
       depth ≤ maxD →
       pureWalk maxD (.dirErr nm er) p depth = ([], .error er)) ∧
    (∀ (maxD : Nat) (er : IoError) (rest : List FNode) (p : FsPath)
       (depth : Nat),
       walkList maxD (.errEntry er :: rest) p depth = ([], .error er)) ∧
    (∀ (cli : Cli) (ff : FileFilter) (out p : FsPath) (nm : String)
       (cp : FsPath) (co : Except IoError String) (w : BufWriterF)
       (e : IoError),
       cp ≠ out → ff.should_process p = true → cli.write_filenames = true →
       w.write_all (cli.comment_style ++ " " ++ pathStr p ++ "\n") = .error e →
       cbEngineF cli ff out p (.file nm (.ok cp) co) w = (w, .error e)) ∧
    (∀ (cli : Cli) (ff : FileFilter) (out p : FsPath) (nm : String)
       (cp : FsPath) (w w1 : BufWriterF) (e : IoError),
       cp ≠ out → ff.should_process p = true →
       (if cli.write_filenames
        then w.write_all (cli.comment_style ++ " " ++ pathStr p ++ "\n")
        else .ok w : Except IoError BufWriterF) = .ok w1 →
       cbEngineF cli ff out p (.file nm (.ok cp) (.error e)) w
         = (w1, .error e)) ∧
    (∀ (cli : Cli) (ff : FileFilter) (out p : FsPath) (nm : String)
       (cp : FsPath) (c : String) (w w1 : BufWriterF) (e : IoError),
       cp ≠ out → ff.should_process p = true →
       (if cli.write_filenames
        then w.write_all (cli.comment_style ++ " " ++ pathStr p ++ "\n")
        else .ok w : Except IoError BufWriterF) = .ok w1 →
       w1.write_all c = .error e →
       cbEngineF cli ff out p (.file nm (.ok cp) (.ok c)) w = (w1, .error e)) ∧
    (∀ (cli : Cli) (ff : FileFilter) (out p : FsPath) (nm : String)
       (cp : FsPath) (c : String) (w w1 w2 : BufWriterF) (e : IoError),
       cp ≠ out → ff.should_process p = true →
       (if cli.write_filenames
        then w.write_all (cli.comment_style ++ " " ++ pathStr p ++ "\n")
        else .ok w : Except IoError BufWriterF) = .ok w1 →
       w1.write_all c = .ok w2 →
       w2.write_all "\n" = .error e →
       cbEngineF cli ff out p (.file nm (.ok cp) (.ok c)) w = (w2, .error e)) ∧
    (∀ (σ : Type) (cb : FsPath → FNode → σ → σ × Except IoError Unit)
       (es1 es2 : List (FsPath × FNode)) (en : FsPath × FNode)
       (tail : Except IoError Unit) (s s1 : σ) (e : IoError),
       seqRun cb es1 (.ok ()) s = (s1, .ok ()) →
       (cb en.1 en.2 s1).2 = .error e →
       seqRun cb (es1 ++ en :: es2) tail s
         = ((cb en.1 en.2 s1).1, .error e)) ∧
    (∀ (wf : Bool) (cs : String) (ff : FileFilter) (out : FsPath)
       (es1 es2 : List (FsPath × FNode)) (en : FsPath × FNode)
       (b1 b : String) (er : IoError),
       renderSeq wf cs ff out es1 = (b1, .ok ()) →
       cbSpec wf cs ff out en.1 en.2 = (b, .error er) →
       renderSeq wf cs ff out (es1 ++ en :: es2) = (b1 ++ b, .error er)) ∧
    (∀ (fs : FS) (cli : Cli) (dev : OutFile) (out : FsPath)
       (ff : FileFilter) (w : BufWriterF) (e : IoError),
       fs.createOutput = .ok () → fs.outCanon = .ok out →
       FileFilter.new cli.patterns = .ok ff → cli.write_tree = false →
       visit_dirs cli ff (cbEngineF cli ff out) fs.rootDir cli.directory 0
           (BufWriterF.new cli.buffer_size dev) = (w, .error e) →
       concatenate_filesF fs cli dev = (w, .error e)) ∧
    (∀ (fs : FS) (cli : Cli) (dev : OutFile) (out : FsPath)
       (ff : FileFilter) (t : String) (e : IoError),
       fs.createOutput = .ok () → fs.outCanon = .ok out →
       FileFilter.new cli.patterns = .ok ff → cli.write_tree = true →
       fs.treeText = .ok t →
       (BufWriterF.new cli.buffer_size dev).write_all (t ++ "\n") = .error e →
       concatenate_filesF fs cli dev
         = (BufWriterF.new cli.buffer_size dev, .error e)) ∧
    (∀ (fs : FS) (cli : Cli) (dev : OutFile) (out : FsPath)
       (ff : FileFilter) (w : BufWriterF) (e : IoError),
       fs.createOutput = .ok () → fs.outCanon = .ok out →
       FileFilter.new cli.patterns = .ok ff → cli.write_tree = false →
       visit_dirs cli ff (cbEngineF cli ff out) fs.rootDir cli.directory 0
           (BufWriterF.new cli.buffer_size dev) = (w, .ok ()) →
       w.flush = .error e →
       concatenate_filesF fs cli dev = (w, .error e)) := by
  refine ⟨?_, ?_, ?_, ?_, ?_, ?_, ?_, ?_, ?_, ?_, ?_, ?_, ?_, ?_⟩
  · intro fs cli dev e h
    rw [concatenate_filesF, h]
  · intro fs cli dev e h1 h2
    rw [concatenate_filesF, h1, h2]
  · intro fs cli dev out g h1 h2 h3
    rw [concatenate_filesF, h1, h2, h3]
  · intro maxD nm er p depth h
    exact pureWalk_dirErr maxD nm er p depth (Nat.not_lt.mpr h)
  · intro maxD er rest p depth
    exact walkList_cons_err maxD er rest p depth
  · intro cli ff out p nm cp co w e hne hsp hwf hw
    simp [cbEngineF, hne, hsp, hwf, hw]
  · intro cli ff out p nm cp w w1 e hne hsp hline
    simp [cbEngineF, hne, hsp, hline]
  · intro cli ff out p nm cp c w w1 e hne hsp hline hbytes
    simp [cbEngineF, hne, hsp, hline, hbytes]
  · intro cli ff out p nm cp c w w1 w2 e hne hsp hline hbytes hnl
    simp [cbEngineF, hne, hsp, hline, hbytes, hnl]
  · intro σ cb es1 es2 en tail s s1 e h1 h2
    rw [seqRun_append, h1]
    show (match cb en.1 en.2 s1 with
          | (s', Except.ok _) => seqRun cb es2 tail s'
          | r => r) = ((cb en.1 en.2 s1).1, Except.error e)
    match hc : cb en.1 en.2 s1 with
    | (s2, r2) =>
      have h2' : r2 = Except.error e := by rw [hc] at h2; exact h2
      subst h2'
      rfl
  · intro wf cs ff out es1 es2 en b1 b er h1 h2
    have h3 : renderSeq wf cs ff out (en :: es2) = (b, .error er) := by
      simp only [renderSeq, h2]
    rw [renderSeq_append, h1, h3]
  · intro fs cli dev out ff w e hcr hcn hff ht hv
    have hred : concatenate_filesF fs cli dev
        = (match visit_dirs cli ff (cbEngineF cli ff out)
              fs.rootDir cli.directory 0 (BufWriterF.new cli.buffer_size dev) with
           | (w', Except.error e') => (w', Except.error e')
           | (w', Except.ok _) =>
             match w'.flush with
             | Except.error e' => (w', Except.error e')
             | Except.ok w2 => (w2, Except.ok ())) := by
      rw [concatenate_filesF, hcr, hcn, hff, ht] <;> rfl
    rw [hred, hv]
  · intro fs cli dev out ff t e hcr hcn hff ht htt hwr
    have hred : concatenate_filesF fs cli dev
        = (match (BufWriterF.new cli.buffer_size dev).write_all (t ++ "\n") with
           | Except.error e' =>
             (BufWriterF.new cli.buffer_size dev, Except.error e')
           | Except.ok writer1 =>
             match visit_dirs cli ff (cbEngineF cli ff out)
                 fs.rootDir cli.directory 0 writer1 with
             | (w', Except.error e') => (w', Except.error e')
             | (w', Except.ok _) =>
               match w'.flush with
               | Except.error e' => (w', Except.error e')
               | Except.ok w2 => (w2, Except.ok ())) := by
      rw [concatenate_filesF, hcr, hcn, hff, ht, htt] <;> rfl
    rw [hred, hwr]
  · intro fs cli dev out ff w e hcr hcn hff ht hv hfl
    have hred : concatenate_filesF fs cli dev
        = (match visit_dirs cli ff (cbEngineF cli ff out)
              fs.rootDir cli.directory 0 (BufWriterF.new cli.buffer_size dev) with
           | (w', Except.error e') => (w', Except.error e')
           | (w', Except.ok _) =>
             match w'.flush with
             | Except.error e' => (w', Except.error e')
             | Except.ok w2 => (w2, Except.ok ())) := by
      rw [concatenate_filesF, hcr, hcn, hff, ht] <;> rfl
    rw [hred, hv]
    show (match w.flush with
          | Except.error e' => (w, Except.error e')
          | Except.ok w2 => (w2, Except.ok ())) = (w, Except.error e)
    rw [hfl]

/-- An output device that never fails. -/
def devFree : OutFile := { written := "", cap := none, err := .os 0 }

/-- An output device that refuses every non-empty write with error `os 9`. -/
def devFull : OutFile := { written := "", cap := some 0, err := .os 9 }

/-- A snapshot whose pre-walk steps all succeed, over a plain root entry. -/
def fsPlain : FS :=
  { createOutput := .ok (), outCanon := .ok ["o"], treeText := .ok "T",
    rootDir := .other "r" }

/-- A snapshot whose root listing contains a failing entry resolution. -/
def fsWalkErr : FS :=
  { createOutput := .ok (), outCanon := .ok ["o"], treeText := .ok "",
    rootDir := .dir "r" [.errEntry (.os 4)] }

/-- A snapshot with one readable file under the root. -/
def fsFlushW : FS :=
  { createOutput := .ok (), outCanon := .ok ["o"], treeText := .ok "",
    rootDir := .dir "r" [.file "a" (.ok ["r", "a"]) (.ok "A")] }

/-- `cliDepthW` with a pattern whose glob text fails to compile. -/
def cliBadPat : Cli := { cliDepthW with patterns := ["["] }

/-- `cliDepthW` with provenance lines enabled. -/
def cliProvW : Cli := { cliDepthW with write_filenames := true }

/-- `cliDepthW` with the tree block enabled and a one-byte buffer. -/
def cliTreeW : Cli := { cliDepthW with write_tree := true, buffer_size := 1 }

/-- `cliDepthW` with a buffer large enough to defer all writes to the flush. -/
def cliFlushW : Cli := { cliDepthW with buffer_size := 100 }

/-- A callback over `Nat` state that fails on every entry. -/
def cbW8 : FsPath → FNode → Nat → Nat × Except IoError Unit :=
  fun _ _ s => (s, .error (.os 3))

theorem fail_fast_propagation_witness :
    concatenate_filesF fsCreateErr cliDepthW devFree
        = (BufWriterF.new 8 devFree, .error (.os 5))
      ∧ concatenate_filesF fsCanonErr cliDepthW devFree
        = (BufWriterF.new 8 devFree, .error (.os 6))
      ∧ concatenate_filesF fsPlain cliBadPat devFree
        = (BufWriterF.new 8 devFree,
           .error (.invalidInput (GlobError.mk (some "[") .unclosedClass)))
      ∧ pureWalk 1 (.dirErr "d" (.os 4)) ["r"] 0 = ([], .error (.os 4))
      ∧ cbEngineF cliProvW ffWitnessAll ["o"] ["r", "a"]
          (.file "a" (.ok ["r", "a"]) (.ok "A")) (BufWriterF.new 1 devFull)
        = (BufWriterF.new 1 devFull, .error (.os 9))
      ∧ cbEngineF cliDepthW ffWitnessAll ["o"] ["r", "a"]
          (.file "a" (.ok ["r", "a"]) (.error (.os 8))) (BufWriterF.new 8 devFree)
        = (BufWriterF.new 8 devFree, .error (.os 8))
      ∧ cbEngineF cliDepthW ffWitnessAll ["o"] ["r", "a"]
          (.file "a" (.ok ["r", "a"]) (.ok "data")) (BufWriterF.new 1 devFull)
        = (BufWriterF.new 1 devFull, .error (.os 9))
      ∧ cbEngineF cliDepthW ffWitnessAll ["o"] ["r", "a"]
          (.file "a" (.ok ["r", "a"]) (.ok "")) (BufWriterF.new 1 devFull)
        = (BufWriterF.new 1 devFull, .error (.os 9))
      ∧ seqRun cbW8 [(["x"], .other "x"), (["y"], .other "y")] (.ok ()) 0
        = (0, .error (.os 3))
      ∧ renderSeq false "//" ffWitnessAll ["o"]
          [(["r", "a"], .file "a" (.ok ["r", "a"]) (.ok "A")),
           (["r", "b"], .file "b" (.ok ["r", "b"]) (.error (.os 8)))]
        = ("A\n", .error (.os 8))
      ∧ concatenate_filesF fsWalkErr cliDepthW devFree
        = (BufWriterF.new 8 devFree, .error (.os 4))
      ∧ concatenate_filesF fsPlain cliTreeW devFull
        = (BufWriterF.new 1 devFull, .error (.os 9))
      ∧ concatenate_filesF fsFlushW cliFlushW devFull
        = (BufWriterF.mk 100 "A\n" devFull, .error (.os 9)) := by
  obtain ⟨c1, c2, c3, c4, c5, c6, c7, c8, c9, c10, c11, c12, c13, c14⟩ :=
    fail_fast_propagation
  exact ⟨c1 fsCreateErr cliDepthW devFree (.os 5) rfl,
    c2 fsCanonErr cliDepthW devFree (.os 6) rfl rfl,
    c3 fsPlain cliBadPat devFree ["o"]
      (GlobError.mk (some "[") .unclosedClass) rfl rfl rfl,
    c4 1 "d" (.os 4) ["r"] 0 (by decide),
    c6 cliProvW ffWitnessAll ["o"] ["r", "a"] "a" ["r", "a"] (.ok "A")
      (BufWriterF.new 1 devFull) (.os 9) (by decide) (by decide) rfl rfl,
    c7 cliDepthW ffWitnessAll ["o"] ["r", "a"] "a" ["r", "a"]
      (BufWriterF.new 8 devFree) (BufWriterF.new 8 devFree) (.os 8)
      (by decide) (by decide) rfl,
    c8 cliDepthW ffWitnessAll ["o"] ["r", "a"] "a" ["r", "a"] "data"
      (BufWriterF.new 1 devFull) (BufWriterF.new 1 devFull) (.os 9)
      (by decide) (by decide) rfl rfl,
    c9 cliDepthW ffWitnessAll ["o"] ["r", "a"] "a" ["r", "a"] ""
      (BufWriterF.new 1 devFull) (BufWriterF.new 1 devFull)
      (BufWriterF.new 1 devFull) (.os 9) (by decide) (by decide) rfl rfl rfl,
    c10 Nat cbW8 [] [(["y"], .other "y")] (["x"], .other "x") (.ok ()) 0 0
      (.os 3) rfl rfl,
    c11 false "//" ffWitnessAll ["o"]
      [(["r", "a"], .file "a" (.ok ["r", "a"]) (.ok "A"))] []
      (["r", "b"], .file "b" (.ok ["r", "b"]) (.error (.os 8))) "A\n" ""
      (.os 8) rfl rfl,
    c12 fsWalkErr cliDepthW devFree ["o"] ffWitnessAll
      (BufWriterF.new 8 devFree) (.os 4) rfl rfl rfl rfl rfl,
    c13 fsPlain cliTreeW devFull ["o"] ffWitnessAll "T" (.os 9)
      rfl rfl rfl rfl rfl rfl,
    c14 fsFlushW cliFlushW devFull ["o"] ffWitnessAll
      (BufWriterF.mk 100 "A\n" devFull) (.os 9) rfl rfl rfl rfl rfl rfl⟩
